import Mathlib

/-!
Shallow embedding of the apkdoctor DEX container codec (Rust sources:
src/decode.rs, src/encode.rs, src/encoded_value_utils.rs, src/dex_structs.rs,
src/lib.rs) together with theorems settling the specification claims.

Modelling conventions:
* A byte stream is a `List Nat`; each element is a byte (`< 256`).  Readers
  normalise with `% 256` exactly where Rust reads a `u8` from the stream.
* Rust machine integers are modelled as `Nat` (unsigned) or `Int` (signed,
  two's-complement value), with explicit `% 2^w` wraps where Rust wraps.
  `f32`/`f64` values are represented by their IEEE-754 bit patterns (`Nat`);
  the codec itself only ever manipulates the bit patterns via `to_bits`,
  except for the (buggy) numeric `as f32`/`as f64` casts in decode.rs, which
  are modelled by `natToF32bits`/`natToF64bits` (round to nearest, ties even).
* Bitwise ops on disjoint ranges: Rust's `x | (y << k)` with `x < 2^k` equals
  `x + y * 2^k`; `x & 0x7f` is `x % 128`; `x >> k` on unsigned is `x / 2^k`;
  arithmetic shift right on signed is floor division `x / 2^k` (Lean's `Int`
  division is euclidean, which is floor division for positive divisors).
* Fallible code (stream exhaustion via `read_exact(..).expect(..)`, `panic!`,
  failed `assert!`, and arithmetic that overflows under Rust's checked (debug)
  semantics) returns `none`.
* Loops are structural recursions; where Rust bounds a loop by a
  `bytes_written > 4` panic, the embedding uses a fuel parameter equal to the
  number of writes the Rust code performs before that panic would fire.
-/

/-! ## Byte-level primitives (decode.rs fixed-width readers, encode.rs writers) -/

/-- Two's-complement value of a 32-bit pattern (`u32 as i32` in Rust). -/
def toInt32 (p : Nat) : Int := if p < 2^31 then (p : Int) else (p : Int) - 2^32

/-- Two's-complement value of a 64-bit pattern (`u64 as i64` in Rust). -/
def toInt64 (p : Nat) : Int := if p < 2^63 then (p : Int) else (p : Int) - 2^64

/-- Two's-complement value of an 8-bit pattern (`u8 as i8` in Rust). -/
def toInt8 (p : Nat) : Int := if p < 2^7 then (p : Int) else (p : Int) - 2^8

/-- 64-bit pattern of an `i64` value (`v as u64` in Rust); total via `emod`. -/
def toU64 (v : Int) : Nat := (v % 2^64).toNat

/-- 32-bit pattern of an `i32` value (`v as u32` in Rust). -/
def toU32 (v : Int) : Nat := (v % 2^32).toNat

/-- `u16::to_le_bytes`. -/
def u16le (x : Nat) : List Nat := [x % 256, x / 256 % 256]

/-- `u32::to_le_bytes`. -/
def u32le (x : Nat) : List Nat :=
  [x % 256, x / 256 % 256, x / 65536 % 256, x / 16777216 % 256]

/-- `u64::to_le_bytes`. -/
def u64le (x : Nat) : List Nat :=
  [x % 256, x / 2^8 % 256, x / 2^16 % 256, x / 2^24 % 256,
   x / 2^32 % 256, x / 2^40 % 256, x / 2^48 % 256, x / 2^56 % 256]

/-- decode.rs `decode_u8`: read one byte; `read_exact` failure is `none`. -/
def decode_u8 : List Nat → Option (Nat × List Nat)
  | [] => none
  | b :: r => some (b % 256, r)

/-- decode.rs `decode_i8` (`decode_u8(r) as i8`). -/
def decode_i8 (s : List Nat) : Option (Int × List Nat) :=
  (decode_u8 s).map (fun p => (toInt8 p.1, p.2))

/-- decode.rs `decode_u16`: two bytes, little endian. -/
def decode_u16 : List Nat → Option (Nat × List Nat)
  | b0 :: b1 :: r => some (b0 % 256 + 256 * (b1 % 256), r)
  | _ => none

/-- decode.rs `decode_u32`: four bytes, little endian. -/
def decode_u32 : List Nat → Option (Nat × List Nat)
  | b0 :: b1 :: b2 :: b3 :: r =>
      some (b0 % 256 + 256 * (b1 % 256) + 65536 * (b2 % 256) + 16777216 * (b3 % 256), r)
  | _ => none

/-- Read exactly `n` bytes (`read_exact` into an `n`-byte buffer). -/
def takeN (n : Nat) (s : List Nat) : Option (List Nat × List Nat) :=
  if n ≤ s.length then some (s.take n, s.drop n) else none

/-- Little-endian accumulation `result |= (b as uN) << shift` over a byte list. -/
def leAccum : List Nat → Nat
  | [] => 0
  | b :: t => b % 256 + 256 * leAccum t

/-! ## LEB128 (encode.rs / decode.rs) -/

/-- encode.rs `encode_uleb128` loop.  The fuel counts the writes the Rust loop
performs before `bytes_written > 4 && data != 0` panics ("Bad uleb128 encode");
`none` is that panic (unreachable for the `u32` domain). -/
def encodeUlebGo : Nat → Nat → Option (List Nat)
  | 0, _ => none
  | fuel + 1, data =>
      let byte := data % 128
      let d' := data / 128
      if d' = 0 then some [byte]
      else (encodeUlebGo fuel d').map (fun l => (byte + 128) :: l)

/-- encode.rs `encode_uleb128` (domain: `u32`). -/
def encode_uleb128 (x : Nat) : Option (List Nat) := encodeUlebGo 5 x

/-- encode.rs `size_uleb128` loop (same shape as the encoder). -/
def sizeUlebGo : Nat → Nat → Option Nat
  | 0, _ => none
  | fuel + 1, data =>
      let d' := data / 128
      if d' = 0 then some 1
      else (sizeUlebGo fuel d').map (· + 1)

/-- encode.rs `size_uleb128`. -/
def size_uleb128 (x : Nat) : Option Nat := sizeUlebGo 5 x

/-- encode.rs `encode_uleb128p1`: `encode_uleb128(w, (data + 1) as uleb128)`.
`data + 1` is checked `i32` addition: it panics (here `none`) at `data = i32::MAX`. -/
def encode_uleb128p1 (x : Int) : Option (List Nat) :=
  if x = 2^31 - 1 then none else encode_uleb128 (toU32 (x + 1))

/-- encode.rs `size_uleb128p1`. -/
def size_uleb128p1 (x : Int) : Option Nat :=
  if x = 2^31 - 1 then none else size_uleb128 (toU32 (x + 1))

/-- decode.rs `decode_uleb128` loop: accumulate 7-bit groups.  The `32 ≤ shift`
guard is Rust's checked shift (`<< shift` with `shift ≥ 32` panics in debug
builds); the `u32` accumulator wraps the shifted group with `% 2^32`. -/
def decodeUlebGo : List Nat → Nat → Nat → Option (Nat × List Nat)
  | [], _, _ => none
  | b :: r, acc, shift =>
      if 32 ≤ shift then none
      else
        -- `result |= ((b & 0x7f) as u32) << shift`; the group occupies bits
        -- disjoint from `acc`, so `|` is `+`.
        let acc' := acc + (b % 256 % 128) * 2^shift % 2^32
        if b % 256 < 128 then some (acc', r)
        else decodeUlebGo r acc' (shift + 7)

/-- decode.rs `decode_uleb128`. -/
def decode_uleb128 (s : List Nat) : Option (Nat × List Nat) := decodeUlebGo s 0 0

/-- decode.rs `decode_uleb128p1`: `decode_uleb128(r) as i32 - 1`.  The `- 1` is
checked `i32` subtraction: it overflows (panics) when the cast yields `i32::MIN`. -/
def decode_uleb128p1 (s : List Nat) : Option (Int × List Nat) :=
  match decode_uleb128 s with
  | none => none
  | some (v, r) => if v = 2^31 then none else some (toInt32 v - 1, r)

/-- encode.rs `encode_sleb128` loop.  The `bytes_written > 4` panic
("Bad sleb128 encode") fires after the fifth write even when the loop would
stop, so the fuel is 4: at fuel 0 any further write is the panic (`none`).
`data >>= 7` is arithmetic shift, i.e. floor division. -/
def encodeSlebGo : Nat → Int → Option (List Nat)
  | 0, _ => none
  | fuel + 1, data =>
      let byte := (data % 128).toNat       -- `data as u8 & 0x7f`
      let d' := data / 128                 -- `data >>= 7`
      if (d' = 0 ∧ byte < 64) ∨ (d' = -1 ∧ 64 ≤ byte) then some [byte]
      else (encodeSlebGo fuel d').map (fun l => (byte + 128) :: l)

/-- encode.rs `encode_sleb128` (domain: `i32`). -/
def encode_sleb128 (x : Int) : Option (List Nat) := encodeSlebGo 4 x

/-- encode.rs `size_sleb128` (same loop, counting only). -/
def sizeSlebGo : Nat → Int → Option Nat
  | 0, _ => none
  | fuel + 1, data =>
      let byte := (data % 128).toNat
      let d' := data / 128
      if (d' = 0 ∧ byte < 64) ∨ (d' = -1 ∧ 64 ≤ byte) then some 1
      else (sizeSlebGo fuel d').map (· + 1)

/-- encode.rs `size_sleb128`. -/
def size_sleb128 (x : Int) : Option Nat := sizeSlebGo 4 x

/-- `p << k` on a 32-bit pattern (value bits beyond bit 31 are discarded). -/
def shl32 (p k : Nat) : Nat := p * 2^k % 2^32

/-- Arithmetic `>> k` on a 32-bit pattern: shift and replicate the sign bit. -/
def sar32 (p k : Nat) : Nat :=
  if p < 2^31 then p / 2^k else p / 2^k + (2^32 - 2^(32 - k))

/-- decode.rs `decode_sleb128`: up to five bytes, straight-line.  Accumulators
are kept as 32-bit patterns; each `|=` combines disjoint bit ranges, so it is
`+`.  The final `(result << k) >> k` sign extensions are `sar32 (shl32 ..)`. -/
def decode_sleb128 : List Nat → Option (Int × List Nat)
  | [] => none
  | b0 :: s1 =>
      let r0 := b0 % 256
      if r0 ≤ 127 then some (toInt32 (sar32 (shl32 r0 25) 25), s1)
      else
        match s1 with
        | [] => none
        | b1 :: s2 =>
            let c1 := b1 % 256
            let r1 := r0 % 128 + c1 % 128 * 2^7
            if c1 ≤ 127 then some (toInt32 (sar32 (shl32 r1 18) 18), s2)
            else
              match s2 with
              | [] => none
              | b2 :: s3 =>
                  let c2 := b2 % 256
                  let r2 := r1 + c2 % 128 * 2^14
                  if c2 ≤ 127 then some (toInt32 (sar32 (shl32 r2 11) 11), s3)
                  else
                    match s3 with
                    | [] => none
                    | b3 :: s4 =>
                        let c3 := b3 % 256
                        let r3 := r2 + c3 % 128 * 2^21
                        if c3 ≤ 127 then some (toInt32 (sar32 (shl32 r3 4) 4), s4)
                        else
                          match s4 with
                          | [] => none
                          | b4 :: s5 =>
                              -- `result |= cur << 28` (no `& 0x7f` mask);
                              -- `cur << 28` wraps to bits 28..31.
                              let c4 := b4 % 256
                              let r4 := r3 + c4 * 2^28 % 2^32
                              some (toInt32 r4, s5)

/-! ## N-byte packed integers and floats (decode.rs / encode.rs) -/

/-- decode.rs `decode_nbytes_unsigned`: `assert!(n <= 8)`, then `n` bytes LE. -/
def decode_nbytes_unsigned (s : List Nat) (n : Nat) : Option (Nat × List Nat) :=
  if n ≤ 8 then (takeN n s).map (fun p => (leAccum p.1, p.2)) else none

/-- `z` wrapped to the `i64` value range (two's complement). -/
def wrapS64 (z : Int) : Int := (z + 2^63) % 2^64 - 2^63

/-- decode.rs `decode_nbytes_signed`.  NOTE (faithful to the source): the
"sign extension" shifts are `result <<= 8 - n; result >>= 8 - n` — the shift
amount is `8 - n` BITS, not `(8 - n) * 8`.  `<<` discards overflowing value
bits (`wrapS64`), `>>` is arithmetic (floor division). -/
def decode_nbytes_signed (s : List Nat) (n : Nat) : Option (Int × List Nat) :=
  if n ≤ 8 then
    (takeN n s).map (fun p =>
      let r0 := toInt64 (leAccum p.1)
      (wrapS64 (r0 * 2^(8 - n)) / 2^(8 - n), p.2))
  else none

/-- Fueled bit length: `natSize f v` is the position of the highest set bit
plus one, for `v < 2^f` (used to model `leading_zeros`/`leading_ones`). -/
def natSize : Nat → Nat → Nat
  | 0, _ => 0
  | fuel + 1, v => if v = 0 then 0 else natSize fuel (v / 2) + 1

/-- IEEE-754 bit pattern of the float with `mantBits` mantissa bits and bias
`bias` nearest to the natural number `v` (round to nearest, ties to even).
Models Rust's `uN as f32` / `uN as f64` numeric casts for `v < 2^64`. -/
def floatBitsOfNat (mantBits bias : Nat) (v : Nat) : Nat :=
  if v = 0 then 0
  else
    let e := natSize 64 v - 1
    if e ≤ mantBits then
      (bias + e) * 2^mantBits + (v - 2^e) * 2^(mantBits - e)
    else
      let sh := e - mantBits
      let mant := v / 2^sh
      let rem := v % 2^sh
      let mant' :=
        if 2^sh < 2 * rem ∨ (2 * rem = 2^sh ∧ mant % 2 = 1) then mant + 1 else mant
      if mant' = 2^(mantBits + 1) then (bias + e + 1) * 2^mantBits
      else (bias + e) * 2^mantBits + (mant' - 2^mantBits)

/-- Bit pattern of `(v : u32) as f32`. -/
def natToF32bits (v : Nat) : Nat := floatBitsOfNat 23 127 v

/-- Bit pattern of `(v : u64) as f64`. -/
def natToF64bits (v : Nat) : Nat := floatBitsOfNat 52 1023 v

/-- decode.rs `decode_nbytes_as_f32`.  NOTE (faithful to the source): the
"right zero extension" shift is `result <<= 4 - n` — `4 - n` BITS, not
`(4 - n) * 8` — and the return is the numeric cast `result as f32`
(`natToF32bits`), not a bit reinterpretation.  The result is the bit pattern
of the returned `f32`. -/
def decode_nbytes_as_f32 (s : List Nat) (n : Nat) : Option (Nat × List Nat) :=
  if n ≤ 4 then
    (takeN n s).map (fun p => (natToF32bits (leAccum p.1 * 2^(4 - n) % 2^32), p.2))
  else none

/-- decode.rs `decode_nbytes_as_f64` (same two quirks with `8 - n` and `as f64`). -/
def decode_nbytes_as_f64 (s : List Nat) (n : Nat) : Option (Nat × List Nat) :=
  if n ≤ 8 then
    (takeN n s).map (fun p => (natToF64bits (leAccum p.1 * 2^(8 - n) % 2^64), p.2))
  else none

/-- encode.rs `encode_nbytes`: `w.write(&data.to_le_bytes()[0..num])`.
(The slice panics for `num > 8`; callers always pass `num ≤ 8`.) -/
def encode_nbytes (num : Nat) (data : Nat) : List Nat := (u64le data).take num

/-- encode.rs `encode_nbytes_for_float`: `data >>= 32 - num * 8` then low `num`
bytes (callers pass `1 ≤ num ≤ 4`). -/
def encode_nbytes_for_float (num : Nat) (data : Nat) : List Nat :=
  (u32le (data / 2^(32 - num * 8))).take num

/-- encode.rs `encode_nbytes_for_double`. -/
def encode_nbytes_for_double (num : Nat) (data : Nat) : List Nat :=
  (u64le (data / 2^(64 - num * 8))).take num

/-! ## Minimum-width policy (encoded_value_utils.rs) -/

/-- `i64::leading_ones` of `data` (leading zeros of the complement pattern). -/
def leadingOnes64 (data : Int) : Nat := 64 - natSize 64 (2^64 - 1 - toU64 data)

/-- `i64::leading_zeros` of `data`. -/
def leadingZeros64 (data : Int) : Nat := 64 - natSize 64 (toU64 data)

/-- encoded_value_utils.rs `get_required_bytes_signed`. -/
def get_required_bytes_signed (data : Int) : Nat :=
  if data < 0 then
    ((64 - leadingOnes64 data + 1) + 7) / 8
  else
    let required_bits := 64 - leadingZeros64 data
    if required_bits = 0 then 1
    else if required_bits % 8 = 0 then (required_bits + 1 + 7) / 8
    else (required_bits + 7) / 8

/-- encoded_value_utils.rs `get_required_bytes_unsigned` (domain: `u64`). -/
def get_required_bytes_unsigned (data : Nat) : Nat :=
  let required_bits := natSize 64 data
  if required_bits = 0 then 1 else (required_bits + 7) / 8

/-- Fueled count of trailing zero bits (`uN::trailing_zeros`; 32 resp. 64 for 0). -/
def ctzGo : Nat → Nat → Nat
  | 0, _ => 0
  | fuel + 1, v => if v % 2 = 1 then 0 else ctzGo fuel (v / 2) + 1

/-- encoded_value_utils.rs `get_required_bytes_for_f32` (argument: the bit
pattern, since the source works on `data.to_bits()`). -/
def get_required_bytes_for_f32 (bits : Nat) : Nat :=
  let required_bits := 32 - ctzGo 32 bits
  if required_bits = 0 then 1 else (required_bits + 7) / 8

/-- encoded_value_utils.rs `get_required_bytes_for_f64`. -/
def get_required_bytes_for_f64 (bits : Nat) : Nat :=
  let required_bits := 64 - ctzGo 64 bits
  if required_bits = 0 then 1 else (required_bits + 7) / 8

/-! ## Data model (dex_structs.rs) -/

/-- dex_structs.rs `Header`. -/
structure Header where
  magic : List Nat
  checksum : Nat
  signature : List Nat
  file_size : Nat
  header_size : Nat
  endian_tag : Nat
  link_size : Nat
  link_off : Nat
  map_off : Nat
  string_ids_size : Nat
  string_ids_off : Nat
  type_ids_size : Nat
  type_ids_off : Nat
  proto_ids_size : Nat
  proto_ids_off : Nat
  field_ids_size : Nat
  field_ids_off : Nat
  method_ids_size : Nat
  method_ids_off : Nat
  class_defs_size : Nat
  class_defs_off : Nat
  data_size : Nat
  data_off : Nat
deriving DecidableEq

/-- dex_structs.rs `StringIdItem`. -/
structure StringIdItem where
  string_data_off : Nat
deriving DecidableEq

/-- dex_structs.rs `TypeIdItem`. -/
structure TypeIdItem where
  descriptor_idx : Nat
deriving DecidableEq

/-- dex_structs.rs `ProtoIdItem`. -/
structure ProtoIdItem where
  shorty_idx : Nat
  return_type_idx : Nat
  parameters_off : Nat
deriving DecidableEq

/-- dex_structs.rs `FieldIdItem`. -/
structure FieldIdItem where
  class_idx : Nat
  type_idx : Nat
  name_idx : Nat
deriving DecidableEq

/-- dex_structs.rs `MethodIdItem`. -/
structure MethodIdItem where
  class_idx : Nat
  proto_idx : Nat
  name_idx : Nat
deriving DecidableEq

/-- dex_structs.rs `ClassDefItem`. -/
structure ClassDefItem where
  class_idx : Nat
  access_flags : Nat
  superclass_idx : Nat
  interfaces_off : Nat
  source_file_idx : Nat
  annotations_off : Nat
  class_data_off : Nat
  static_values_off : Nat
deriving DecidableEq

/-- dex_structs.rs `CallSiteIdItem`. -/
structure CallSiteIdItem where
  call_site_off : Nat
deriving DecidableEq

/-- dex_structs.rs `MethodHandleItem`. -/
structure MethodHandleItem where
  method_handle_type : Nat
  unused1 : Nat
  field_or_method_id : Nat
  unused2 : Nat
deriving DecidableEq

/-- dex_structs.rs `MapItem`; `type_code` is the raw `u16` discriminant of the
`TypeCode` enum. -/
structure MapItem where
  type_code : Nat
  unused : Nat
  size : Nat
  offset : Nat
deriving DecidableEq

/-- dex_structs.rs `MapList`. -/
structure MapList where
  list : List MapItem
deriving DecidableEq

/-- dex_structs.rs `TypeItem`. -/
structure TypeItem where
  type_idx : Nat
deriving DecidableEq

/-- dex_structs.rs `TypeList`. -/
structure TypeList where
  list : List TypeItem
deriving DecidableEq

/-- dex_structs.rs `StringDataItem`. -/
structure StringDataItem where
  utf16_size : Nat
  data : List Nat
deriving DecidableEq

/-- dex_structs.rs `AnnotationSetRefItem` (abbreviated `Anno`). -/
structure AnnoSetRefItem where
  annotations_off : Nat
deriving DecidableEq

/-- dex_structs.rs `AnnotationSetRefList`. -/
structure AnnoSetRefList where
  list : List AnnoSetRefItem
deriving DecidableEq

/-- dex_structs.rs `AnnotationOffItem`. -/
structure AnnoOffItem where
  annotation_off : Nat
deriving DecidableEq

/-- dex_structs.rs `AnnotationSetItem`. -/
structure AnnoSetItem where
  entries : List AnnoOffItem
deriving DecidableEq

/-- dex_structs.rs `FieldAnnotation`. -/
structure FieldAnno where
  field_idx : Nat
  annotations_off : Nat
deriving DecidableEq

/-- dex_structs.rs `MethodAnnotation`. -/
structure MethodAnno where
  method_idx : Nat
  annotations_off : Nat
deriving DecidableEq

/-- dex_structs.rs `ParameterAnnotation`. -/
structure ParameterAnno where
  method_idx : Nat
  annotations_off : Nat
deriving DecidableEq

/-- dex_structs.rs `AnnotationsDirectoryItem`. -/
structure AnnoDirectoryItem where
  class_annotations_off : Nat
  field_annotations : List FieldAnno
  method_annotations : List MethodAnno
  parameter_annotations : List ParameterAnno
deriving DecidableEq

/-- dex_structs.rs `EncodedField`. -/
structure EncodedField where
  field_idx_off : Nat
  access_flags : Nat
deriving DecidableEq

/-- dex_structs.rs `EncodedMethod`. -/
structure EncodedMethod where
  method_idx_off : Nat
  access_flags : Nat
  code_off : Nat
deriving DecidableEq

/-- dex_structs.rs `ClassDataItem`. -/
structure ClassDataItem where
  static_fields : List EncodedField
  instance_fields : List EncodedField
  direct_methods : List EncodedMethod
  virtual_methods : List EncodedMethod
deriving DecidableEq

/-- dex_structs.rs `TryItem`. -/
structure TryItem where
  start_addr : Nat
  insn_count : Nat
  handler_off : Nat
deriving DecidableEq

/-- dex_structs.rs `EncodedTypeAddressPair`. -/
structure EncodedTypeAddressPair where
  type_idx : Nat
  addr : Nat
deriving DecidableEq

/-- dex_structs.rs `EncodedCatchHandler`. -/
structure EncodedCatchHandler where
  handlers : List EncodedTypeAddressPair
  catch_all_addr : Option Nat
deriving DecidableEq

/-- dex_structs.rs `EncodedCatchHandlerList`. -/
structure EncodedCatchHandlerList where
  list : List EncodedCatchHandler
deriving DecidableEq

/-- dex_structs.rs `CodeItem`. -/
structure CodeItem where
  registers_size : Nat
  ins_size : Nat
  outs_size : Nat
  debug_info_off : Nat
  insns : List Nat
  tries : List TryItem
  handlers : Option EncodedCatchHandlerList
deriving DecidableEq

/-- dex_structs.rs `DebugInfoItem`. -/
structure DebugInfoItem where
  line_start : Nat
  parameter_names : List Int
  bytecode : List Nat
deriving DecidableEq

mutual
/-- dex_structs.rs `EncodedValue`.  Float/double payloads are stored as their
IEEE-754 bit patterns. -/
inductive EncodedValue where
  | ValueByte (v : Int)
  | ValueShort (v : Int)
  | ValueChar (v : Nat)
  | ValueInt (v : Int)
  | ValueLong (v : Int)
  | ValueFloat (bits : Nat)
  | ValueDouble (bits : Nat)
  | ValueMethodType (v : Nat)
  | ValueMethodHandle (v : Nat)
  | ValueString (v : Nat)
  | ValueType (v : Nat)
  | ValueField (v : Nat)
  | ValueMethod (v : Nat)
  | ValueEnum (v : Nat)
  | ValueArray (arr : EncodedArray)
  | ValueAnno (anno : EncodedAnno)
  | ValueNull
  | ValueBoolean (b : Bool)

/-- dex_structs.rs `EncodedArray` (its `Vec<EncodedValue>` as a mutual list). -/
inductive EncodedArray where
  | mk (values : EVList)

/-- `Vec<EncodedValue>`. -/
inductive EVList where
  | nil
  | cons (hd : EncodedValue) (tl : EVList)

/-- dex_structs.rs `EncodedAnnotation` (abbreviated `Anno`). -/
inductive EncodedAnno where
  | mk (type_idx : Nat) (elements : AEList)

/-- dex_structs.rs `AnnotationElement`. -/
inductive AnnoElement where
  | mk (name_idx : Nat) (value : EncodedValue)

/-- `Vec<AnnotationElement>`. -/
inductive AEList where
  | nil
  | cons (hd : AnnoElement) (tl : AEList)
end

/-- dex_structs.rs `AnnotationItem`. -/
structure AnnoItem where
  visibility : Nat
  anno : EncodedAnno

/-- dex_structs.rs `EncodedArrayItem`. -/
structure EncodedArrayItem where
  value : EncodedArray

/-- lib.rs `DexFile`.  (`hiddenapi_class_data_items` is omitted: its codec is
`unimplemented!` and `deserialize` aborts when the section is present.) -/
structure DexFile where
  header : Header
  string_ids : List StringIdItem
  type_ids : List TypeIdItem
  proto_ids : List ProtoIdItem
  field_ids : List FieldIdItem
  method_ids : List MethodIdItem
  class_defs : List ClassDefItem
  call_site_ids : List CallSiteIdItem
  method_handles : List MethodHandleItem
  data : List Nat
  type_lists : List TypeList
  string_data_items : List StringDataItem
  annotation_set_ref_lists : List AnnoSetRefList
  annotation_set_items : List AnnoSetItem
  annotation_items : List AnnoItem
  annotations_directory_items : List AnnoDirectoryItem
  encoded_array_items : List EncodedArrayItem
  class_data_items : List ClassDataItem
  debug_info_items : List DebugInfoItem
  code_items : List CodeItem
  link_data : List Nat
  map_list : MapList

/-! ## Per-struct codecs (dex_structs.rs impl DexStruct) -/

/-- Concatenate the encodings of a list of records. -/
def emitAll {α : Type} (f : α → List Nat) : List α → List Nat
  | [] => []
  | a :: t => f a ++ emitAll f t

/-- Run a one-record parser `count` times (`for _ in 0..size` loops). -/
def parseCount {α : Type} (p : List Nat → Option (α × List Nat)) :
    Nat → List Nat → Option (List α × List Nat)
  | 0, s => some ([], s)
  | n + 1, s =>
      match p s with
      | none => none
      | some (a, s1) =>
          match parseCount p n s1 with
          | none => none
          | some (l, s2) => some (a :: l, s2)

/-- `BufRead::read_until(0, ..)`: consume through the first `0` byte inclusive;
at end of stream it returns everything read so far (no error). -/
def readUntilZero : List Nat → List Nat × List Nat
  | [] => ([], [])
  | b :: t =>
      if b % 256 = 0 then ([b], t)
      else
        let p := readUntilZero t
        (b :: p.1, p.2)

/-- `Header::deserialize` (equivalently, the byte image of the field-order
`transmute` in lib.rs, read little-endian). -/
def Header.deserialize (s : List Nat) : Option (Header × List Nat) :=
  match takeN 8 s with
  | none => none
  | some (magic, s) =>
  match decode_u32 s with
  | none => none
  | some (checksum, s) =>
  match takeN 20 s with
  | none => none
  | some (signature, s) =>
  match decode_u32 s with
  | none => none
  | some (file_size, s) =>
  match decode_u32 s with
  | none => none
  | some (header_size, s) =>
  match decode_u32 s with
  | none => none
  | some (endian_tag, s) =>
  match decode_u32 s with
  | none => none
  | some (link_size, s) =>
  match decode_u32 s with
  | none => none
  | some (link_off, s) =>
  match decode_u32 s with
  | none => none
  | some (map_off, s) =>
  match decode_u32 s with
  | none => none
  | some (string_ids_size, s) =>
  match decode_u32 s with
  | none => none
  | some (string_ids_off, s) =>
  match decode_u32 s with
  | none => none
  | some (type_ids_size, s) =>
  match decode_u32 s with
  | none => none
  | some (type_ids_off, s) =>
  match decode_u32 s with
  | none => none
  | some (proto_ids_size, s) =>
  match decode_u32 s with
  | none => none
  | some (proto_ids_off, s) =>
  match decode_u32 s with
  | none => none
  | some (field_ids_size, s) =>
  match decode_u32 s with
  | none => none
  | some (field_ids_off, s) =>
  match decode_u32 s with
  | none => none
  | some (method_ids_size, s) =>
  match decode_u32 s with
  | none => none
  | some (method_ids_off, s) =>
  match decode_u32 s with
  | none => none
  | some (class_defs_size, s) =>
  match decode_u32 s with
  | none => none
  | some (class_defs_off, s) =>
  match decode_u32 s with
  | none => none
  | some (data_size, s) =>
  match decode_u32 s with
  | none => none
  | some (data_off, s) =>
  some ({ magic, checksum, signature, file_size, header_size, endian_tag,
          link_size, link_off, map_off, string_ids_size, string_ids_off,
          type_ids_size, type_ids_off, proto_ids_size, proto_ids_off,
          field_ids_size, field_ids_off, method_ids_size, method_ids_off,
          class_defs_size, class_defs_off, data_size, data_off }, s)
/-- `Header::serialize` (also the reverse transmute in lib.rs `serialize`). -/
def Header.serialize (h : Header) : List Nat :=
  h.magic ++ u32le h.checksum ++ h.signature ++ u32le h.file_size ++
  u32le h.header_size ++ u32le h.endian_tag ++ u32le h.link_size ++
  u32le h.link_off ++ u32le h.map_off ++ u32le h.string_ids_size ++
  u32le h.string_ids_off ++ u32le h.type_ids_size ++ u32le h.type_ids_off ++
  u32le h.proto_ids_size ++ u32le h.proto_ids_off ++ u32le h.field_ids_size ++
  u32le h.field_ids_off ++ u32le h.method_ids_size ++ u32le h.method_ids_off ++
  u32le h.class_defs_size ++ u32le h.class_defs_off ++ u32le h.data_size ++
  u32le h.data_off

/-- `Header::size`: returns the `header_size` FIELD, not the encoded length. -/
def Header.size (h : Header) : Nat := h.header_size

/-- `StringIdItem::deserialize` (field-order little-endian reads; equals the
lib.rs transmute byte image). -/
def StringIdItem.deserialize (s : List Nat) : Option (StringIdItem × List Nat) :=
  match decode_u32 s with
  | none => none
  | some (string_data_off, s) =>
  some ({ string_data_off }, s)
/-- `StringIdItem::serialize`. -/
def StringIdItem.serialize (x : StringIdItem) : List Nat := u32le x.string_data_off

/-- `TypeIdItem::deserialize` (field-order little-endian reads; equals the
lib.rs transmute byte image). -/
def TypeIdItem.deserialize (s : List Nat) : Option (TypeIdItem × List Nat) :=
  match decode_u32 s with
  | none => none
  | some (descriptor_idx, s) =>
  some ({ descriptor_idx }, s)
/-- `TypeIdItem::serialize`. -/
def TypeIdItem.serialize (x : TypeIdItem) : List Nat := u32le x.descriptor_idx

/-- `ProtoIdItem::deserialize` (field-order little-endian reads; equals the
lib.rs transmute byte image). -/
def ProtoIdItem.deserialize (s : List Nat) : Option (ProtoIdItem × List Nat) :=
  match decode_u32 s with
  | none => none
  | some (shorty_idx, s) =>
  match decode_u32 s with
  | none => none
  | some (return_type_idx, s) =>
  match decode_u32 s with
  | none => none
  | some (parameters_off, s) =>
  some ({ shorty_idx, return_type_idx, parameters_off }, s)
/-- `ProtoIdItem::serialize`. -/
def ProtoIdItem.serialize (x : ProtoIdItem) : List Nat :=
  u32le x.shorty_idx ++ u32le x.return_type_idx ++ u32le x.parameters_off

/-- `FieldIdItem::deserialize` (field-order little-endian reads; equals the
lib.rs transmute byte image). -/
def FieldIdItem.deserialize (s : List Nat) : Option (FieldIdItem × List Nat) :=
  match decode_u16 s with
  | none => none
  | some (class_idx, s) =>
  match decode_u16 s with
  | none => none
  | some (type_idx, s) =>
  match decode_u32 s with
  | none => none
  | some (name_idx, s) =>
  some ({ class_idx, type_idx, name_idx }, s)
/-- `FieldIdItem::serialize`. -/
def FieldIdItem.serialize (x : FieldIdItem) : List Nat :=
  u16le x.class_idx ++ u16le x.type_idx ++ u32le x.name_idx

/-- `MethodIdItem::deserialize` (field-order little-endian reads; equals the
lib.rs transmute byte image). -/
def MethodIdItem.deserialize (s : List Nat) : Option (MethodIdItem × List Nat) :=
  match decode_u16 s with
  | none => none
  | some (class_idx, s) =>
  match decode_u16 s with
  | none => none
  | some (proto_idx, s) =>
  match decode_u32 s with
  | none => none
  | some (name_idx, s) =>
  some ({ class_idx, proto_idx, name_idx }, s)
/-- `MethodIdItem::serialize`. -/
def MethodIdItem.serialize (x : MethodIdItem) : List Nat :=
  u16le x.class_idx ++ u16le x.proto_idx ++ u32le x.name_idx

/-- `ClassDefItem::deserialize` (field-order little-endian reads; equals the
lib.rs transmute byte image). -/
def ClassDefItem.deserialize (s : List Nat) : Option (ClassDefItem × List Nat) :=
  match decode_u32 s with
  | none => none
  | some (class_idx, s) =>
  match decode_u32 s with
  | none => none
  | some (access_flags, s) =>
  match decode_u32 s with
  | none => none
  | some (superclass_idx, s) =>
  match decode_u32 s with
  | none => none
  | some (interfaces_off, s) =>
  match decode_u32 s with
  | none => none
  | some (source_file_idx, s) =>
  match decode_u32 s with
  | none => none
  | some (annotations_off, s) =>
  match decode_u32 s with
  | none => none
  | some (class_data_off, s) =>
  match decode_u32 s with
  | none => none
  | some (static_values_off, s) =>
  some ({ class_idx, access_flags, superclass_idx, interfaces_off, source_file_idx, annotations_off, class_data_off, static_values_off }, s)
/-- `ClassDefItem::serialize`. -/
def ClassDefItem.serialize (x : ClassDefItem) : List Nat :=
  u32le x.class_idx ++ u32le x.access_flags ++ u32le x.superclass_idx ++
  u32le x.interfaces_off ++ u32le x.source_file_idx ++ u32le x.annotations_off ++
  u32le x.class_data_off ++ u32le x.static_values_off

/-- `CallSiteIdItem::deserialize` (field-order little-endian reads; equals the
lib.rs transmute byte image). -/
def CallSiteIdItem.deserialize (s : List Nat) : Option (CallSiteIdItem × List Nat) :=
  match decode_u32 s with
  | none => none
  | some (call_site_off, s) =>
  some ({ call_site_off }, s)
/-- `CallSiteIdItem::serialize`. -/
def CallSiteIdItem.serialize (x : CallSiteIdItem) : List Nat := u32le x.call_site_off

/-- `MethodHandleItem::deserialize` (field-order little-endian reads; equals the
lib.rs transmute byte image). -/
def MethodHandleItem.deserialize (s : List Nat) : Option (MethodHandleItem × List Nat) :=
  match decode_u16 s with
  | none => none
  | some (method_handle_type, s) =>
  match decode_u16 s with
  | none => none
  | some (unused1, s) =>
  match decode_u16 s with
  | none => none
  | some (field_or_method_id, s) =>
  match decode_u16 s with
  | none => none
  | some (unused2, s) =>
  some ({ method_handle_type, unused1, field_or_method_id, unused2 }, s)
/-- `MethodHandleItem::serialize`. -/
def MethodHandleItem.serialize (x : MethodHandleItem) : List Nat :=
  u16le x.method_handle_type ++ u16le x.unused1 ++
  u16le x.field_or_method_id ++ u16le x.unused2

/-- The valid `TypeCode` discriminants (a `u16` outside this set makes the
`transmute` in `MapItem::deserialize`/lib.rs undefined; modelled as failure). -/
def validTypeCode (tc : Nat) : Bool :=
  [0x0000, 0x0001, 0x0002, 0x0003, 0x0004, 0x0005, 0x0006, 0x0007, 0x0008,
   0x1000, 0x1001, 0x1002, 0x1003, 0x2000, 0x2001, 0x2002, 0x2003, 0x2004,
   0x2005, 0x2006, 0xF000].contains tc

/-- `MapItem::deserialize` (also the byte image of the lib.rs transmute). -/
def MapItem.deserialize (s : List Nat) : Option (MapItem × List Nat) :=
  match decode_u16 s with
  | none => none
  | some (tc, s) =>
      if validTypeCode tc then
        match decode_u16 s with
        | none => none
        | some (unused, s) =>
        match decode_u32 s with
        | none => none
        | some (size, s) =>
        match decode_u32 s with
        | none => none
        | some (offset, s) => some ({ type_code := tc, unused, size, offset }, s)
      else none

/-- `MapList::get`: the LAST map entry with the given type code. -/
def MapList.get (ml : MapList) (tc : Nat) : Option MapItem :=
  (ml.list.filter (fun mi => mi.type_code == tc)).getLast?

/-- `TypeItem::deserialize`. -/
def TypeItem.deserialize (s : List Nat) : Option (TypeItem × List Nat) :=
  (decode_u16 s).map (fun p => ({ type_idx := p.1 }, p.2))

/-- `TypeItem::serialize`. -/
def TypeItem.serialize (x : TypeItem) : List Nat := u16le x.type_idx

/-- `TypeList::deserialize` (dex_structs.rs version: no alignment pad). -/
def TypeList.deserialize (s : List Nat) : Option (TypeList × List Nat) :=
  match decode_u32 s with
  | none => none
  | some (size, s) =>
      (parseCount TypeItem.deserialize size s).map (fun p => ({ list := p.1 }, p.2))

/-- `TypeList::serialize`: count then the 2-byte indices — NO trailing pad. -/
def TypeList.serialize (x : TypeList) : List Nat :=
  u32le (x.list.length % 2^32) ++ emitAll TypeItem.serialize x.list

/-- `TypeList::size`: `4 + 2 * len` — no pad counted. -/
def TypeList.size (x : TypeList) : Nat := 4 + 2 * x.list.length

/-- `StringDataItem::deserialize`. -/
def StringDataItem.deserialize (s : List Nat) : Option (StringDataItem × List Nat) :=
  match decode_uleb128 s with
  | none => none
  | some (size, s) =>
      let p := readUntilZero s
      some ({ utf16_size := size, data := p.1 }, p.2)

/-- `AnnotationSetRefItem::deserialize`. -/
def AnnoSetRefItem.deserialize (s : List Nat) : Option (AnnoSetRefItem × List Nat) :=
  (decode_u32 s).map (fun p => ({ annotations_off := p.1 }, p.2))

/-- `AnnotationOffItem::deserialize`. -/
def AnnoOffItem.deserialize (s : List Nat) : Option (AnnoOffItem × List Nat) :=
  (decode_u32 s).map (fun p => ({ annotation_off := p.1 }, p.2))

/-- `FieldAnnotation::deserialize`. -/
def FieldAnno.deserialize (s : List Nat) : Option (FieldAnno × List Nat) :=
  match decode_u32 s with
  | none => none
  | some (field_idx, s) =>
      (decode_u32 s).map (fun p => ({ field_idx, annotations_off := p.1 }, p.2))

/-- `MethodAnnotation::deserialize`. -/
def MethodAnno.deserialize (s : List Nat) : Option (MethodAnno × List Nat) :=
  match decode_u32 s with
  | none => none
  | some (method_idx, s) =>
      (decode_u32 s).map (fun p => ({ method_idx, annotations_off := p.1 }, p.2))

/-- `ParameterAnnotation::deserialize`. -/
def ParameterAnno.deserialize (s : List Nat) : Option (ParameterAnno × List Nat) :=
  match decode_u32 s with
  | none => none
  | some (method_idx, s) =>
      (decode_u32 s).map (fun p => ({ method_idx, annotations_off := p.1 }, p.2))

/-- `AnnotationsDirectoryItem::deserialize`. -/
def AnnoDirectoryItem.deserialize (s : List Nat) : Option (AnnoDirectoryItem × List Nat) :=
  match decode_u32 s with
  | none => none
  | some (class_annotations_off, s) =>
  match decode_u32 s with
  | none => none
  | some (fields_size, s) =>
  match decode_u32 s with
  | none => none
  | some (annotated_methods_size, s) =>
  match decode_u32 s with
  | none => none
  | some (annotated_parameters_size, s) =>
  match parseCount FieldAnno.deserialize fields_size s with
  | none => none
  | some (field_annotations, s) =>
  match parseCount MethodAnno.deserialize annotated_methods_size s with
  | none => none
  | some (method_annotations, s) =>
  match parseCount ParameterAnno.deserialize annotated_parameters_size s with
  | none => none
  | some (parameter_annotations, s) =>
      some ({ class_annotations_off, field_annotations, method_annotations,
              parameter_annotations }, s)

/-- `EncodedField::deserialize`. -/
def EncodedField.deserialize (s : List Nat) : Option (EncodedField × List Nat) :=
  match decode_uleb128 s with
  | none => none
  | some (field_idx_off, s) =>
      (decode_uleb128 s).map (fun p => ({ field_idx_off, access_flags := p.1 }, p.2))

/-- `EncodedMethod::deserialize`. -/
def EncodedMethod.deserialize (s : List Nat) : Option (EncodedMethod × List Nat) :=
  match decode_uleb128 s with
  | none => none
  | some (method_idx_off, s) =>
  match decode_uleb128 s with
  | none => none
  | some (access_flags, s) =>
      (decode_uleb128 s).map (fun p => ({ method_idx_off, access_flags, code_off := p.1 }, p.2))

/-- `ClassDataItem::deserialize`. -/
def ClassDataItem.deserialize (s : List Nat) : Option (ClassDataItem × List Nat) :=
  match decode_uleb128 s with
  | none => none
  | some (static_fields_size, s) =>
  match decode_uleb128 s with
  | none => none
  | some (instance_fields_size, s) =>
  match decode_uleb128 s with
  | none => none
  | some (direct_methods_size, s) =>
  match decode_uleb128 s with
  | none => none
  | some (virtual_methods_size, s) =>
  match parseCount EncodedField.deserialize static_fields_size s with
  | none => none
  | some (static_fields, s) =>
  match parseCount EncodedField.deserialize instance_fields_size s with
  | none => none
  | some (instance_fields, s) =>
  match parseCount EncodedMethod.deserialize direct_methods_size s with
  | none => none
  | some (direct_methods, s) =>
  match parseCount EncodedMethod.deserialize virtual_methods_size s with
  | none => none
  | some (virtual_methods, s) =>
      some ({ static_fields, instance_fields, direct_methods, virtual_methods }, s)

/-- `TryItem::deserialize`. -/
def TryItem.deserialize (s : List Nat) : Option (TryItem × List Nat) :=
  match decode_u32 s with
  | none => none
  | some (start_addr, s) =>
  match decode_u16 s with
  | none => none
  | some (insn_count, s) =>
      (decode_u16 s).map (fun p => ({ start_addr, insn_count, handler_off := p.1 }, p.2))

/-- `EncodedTypeAddressPair::deserialize`. -/
def EncodedTypeAddressPair.deserialize (s : List Nat) :
    Option (EncodedTypeAddressPair × List Nat) :=
  match decode_uleb128 s with
  | none => none
  | some (type_idx, s) =>
      (decode_uleb128 s).map (fun p => ({ type_idx, addr := p.1 }, p.2))

/-- `EncodedTypeAddressPair::serialize`. -/
def EncodedTypeAddressPair.serialize (x : EncodedTypeAddressPair) : Option (List Nat) :=
  match encode_uleb128 x.type_idx with
  | none => none
  | some l1 =>
      (encode_uleb128 x.addr).map (fun l2 => l1 ++ l2)

/-- `EncodedTypeAddressPair::size`. -/
def EncodedTypeAddressPair.size (x : EncodedTypeAddressPair) : Option Nat :=
  match size_uleb128 x.type_idx with
  | none => none
  | some n1 => (size_uleb128 x.addr).map (fun n2 => n1 + n2)

/-- `EncodedCatchHandler::deserialize`: SLEB128 count; `|count|` typed
handlers; a ULEB128 catch-all address iff the count is non-positive. -/
def EncodedCatchHandler.deserialize (s : List Nat) :
    Option (EncodedCatchHandler × List Nat) :=
  match decode_sleb128 s with
  | none => none
  | some (size, s) =>
  match parseCount EncodedTypeAddressPair.deserialize size.natAbs s with
  | none => none
  | some (handlers, s) =>
      if size ≤ 0 then
        (decode_uleb128 s).map (fun p => ({ handlers, catch_all_addr := some p.1 }, p.2))
      else some ({ handlers, catch_all_addr := none }, s)

/-- Concatenate fallible encodings of a list of records
(`for x in .. { x.serialize(w) }` with a fallible per-record encoder). -/
def emitAllM {α : Type} (f : α → Option (List Nat)) : List α → Option (List Nat)
  | [] => some []
  | a :: t =>
      match f a with
      | none => none
      | some l => (emitAllM f t).map (fun r => l ++ r)

/-- `EncodedCatchHandler::serialize`.  The cast `handlers.len() as sleb128`
wraps to `i32`; negating `i32::MIN` is a checked-arithmetic panic (`none`). -/
def EncodedCatchHandler.serialize (x : EncodedCatchHandler) : Option (List Nat) :=
  match x.catch_all_addr with
  | none =>
      match encode_sleb128 (toInt32 (x.handlers.length % 2^32)) with
      | none => none
      | some l1 =>
          (emitAllM EncodedTypeAddressPair.serialize x.handlers).map (fun b => l1 ++ b)
  | some catch_all_addr =>
      if toInt32 (x.handlers.length % 2^32) = -(2^31) then none
      else
        match encode_sleb128 (-(toInt32 (x.handlers.length % 2^32))) with
        | none => none
        | some l1 =>
        match emitAllM EncodedTypeAddressPair.serialize x.handlers with
        | none => none
        | some b =>
            (encode_uleb128 catch_all_addr).map (fun l2 => l1 ++ b ++ l2)

/-- `EncodedCatchHandlerList::deserialize`. -/
def EncodedCatchHandlerList.deserialize (s : List Nat) :
    Option (EncodedCatchHandlerList × List Nat) :=
  match decode_uleb128 s with
  | none => none
  | some (size, s) =>
      (parseCount EncodedCatchHandler.deserialize size s).map
        (fun p => ({ list := p.1 }, p.2))

/-- `CodeItem::deserialize` (2-byte pad after the insns iff tries are present
and the insn count is odd; handlers present iff tries are). -/
def CodeItem.deserialize (s : List Nat) : Option (CodeItem × List Nat) :=
  match decode_u16 s with
  | none => none
  | some (registers_size, s) =>
  match decode_u16 s with
  | none => none
  | some (ins_size, s) =>
  match decode_u16 s with
  | none => none
  | some (outs_size, s) =>
  match decode_u16 s with
  | none => none
  | some (tries_size, s) =>
  match decode_u32 s with
  | none => none
  | some (debug_info_off, s) =>
  match decode_u32 s with
  | none => none
  | some (insns_size, s) =>
  match parseCount decode_u16 insns_size s with
  | none => none
  | some (insns, s) =>
  match (if tries_size ≠ 0 ∧ insns_size % 2 = 1 then (decode_u16 s).map Prod.snd
         else some s) with
  | none => none
  | some s =>
  match parseCount TryItem.deserialize tries_size s with
  | none => none
  | some (tries, s) =>
  match (if tries_size ≠ 0 then
           (EncodedCatchHandlerList.deserialize s).map (fun p => (some p.1, p.2))
         else some (none, s)) with
  | none => none
  | some (handlers, s) =>
      some ({ registers_size, ins_size, outs_size, debug_info_off, insns,
              tries, handlers }, s)

/-- `DebugInfoItem::deserialize`. -/
def DebugInfoItem.deserialize (s : List Nat) : Option (DebugInfoItem × List Nat) :=
  match decode_uleb128 s with
  | none => none
  | some (line_start, s) =>
  match decode_uleb128 s with
  | none => none
  | some (parameters_size, s) =>
  match parseCount decode_uleb128p1 parameters_size s with
  | none => none
  | some (parameter_names, s) =>
      let p := readUntilZero s
      some ({ line_start, parameter_names, bytecode := p.1 }, p.2)

/-! ## EncodedValue codec (dex_structs.rs) -/

/-- `i64 → i16` cast (`as i16`): wrap to 16 bits, two's complement. -/
def asI16 (v : Int) : Int :=
  let p := (v % 2^16).toNat
  if p < 2^15 then (p : Int) else (p : Int) - 2^16

/-- `i64 → i32` cast (`as i32`). -/
def asI32 (v : Int) : Int := toInt32 (toU64 v % 2^32)

/-- `EncodedValue::get_type_code`. -/
def EncodedValue.get_type_code : EncodedValue → Nat
  | .ValueByte _ => 0x00
  | .ValueShort _ => 0x02
  | .ValueChar _ => 0x03
  | .ValueInt _ => 0x04
  | .ValueLong _ => 0x06
  | .ValueFloat _ => 0x10
  | .ValueDouble _ => 0x11
  | .ValueMethodType _ => 0x15
  | .ValueMethodHandle _ => 0x16
  | .ValueString _ => 0x17
  | .ValueType _ => 0x18
  | .ValueField _ => 0x19
  | .ValueMethod _ => 0x1a
  | .ValueEnum _ => 0x1b
  | .ValueArray _ => 0x1c
  | .ValueAnno _ => 0x1d
  | .ValueNull => 0x1e
  | .ValueBoolean _ => 0x1f

/-- `EncodedValue::serialize_value_signed`: header byte `((rb-1) << 5) | tc`
(a `u8`, hence the `% 256`; the operand ranges are disjoint so `|` is `+`),
then the low `rb` bytes of `v as u64`. -/
def serialize_value_signed (tc : Nat) (v : Int) : List Nat :=
  let rb := get_required_bytes_signed v
  ((rb - 1) * 32 % 256 + tc) :: encode_nbytes rb (toU64 v)

/-- `EncodedValue::serialize_value_unsigned`. -/
def serialize_value_unsigned (tc : Nat) (v : Nat) : List Nat :=
  let rb := get_required_bytes_unsigned v
  ((rb - 1) * 32 % 256 + tc) :: encode_nbytes rb v

/-- `EVList` length (`Vec::len`). -/
def EVList.length : EVList → Nat
  | .nil => 0
  | .cons _ t => t.length + 1

/-- `AEList` length. -/
def AEList.length : AEList → Nat
  | .nil => 0
  | .cons _ t => t.length + 1

mutual
/-- `EncodedValue::serialize`. -/
def EncodedValue.serialize : EncodedValue → Option (List Nat)
  | .ValueByte v => some (serialize_value_signed 0x00 v)
  | .ValueShort v => some (serialize_value_signed 0x02 v)
  | .ValueChar v => some (serialize_value_unsigned 0x03 v)
  | .ValueInt v => some (serialize_value_signed 0x04 v)
  | .ValueLong v => some (serialize_value_signed 0x06 v)
  | .ValueFloat bits =>
      let rb := get_required_bytes_for_f32 bits
      some (((rb - 1) * 32 % 256 + 0x10) :: encode_nbytes_for_float rb bits)
  | .ValueDouble bits =>
      let rb := get_required_bytes_for_f64 bits
      some (((rb - 1) * 32 % 256 + 0x11) :: encode_nbytes_for_double rb bits)
  | .ValueMethodType v => some (serialize_value_unsigned 0x15 v)
  | .ValueMethodHandle v => some (serialize_value_unsigned 0x16 v)
  | .ValueString v => some (serialize_value_unsigned 0x17 v)
  | .ValueType v => some (serialize_value_unsigned 0x18 v)
  | .ValueField v => some (serialize_value_unsigned 0x19 v)
  | .ValueMethod v => some (serialize_value_unsigned 0x1a v)
  | .ValueEnum v => some (serialize_value_unsigned 0x1b v)
  | .ValueArray arr => (arr.serialize).map (fun l => 0x1c :: l)
  | .ValueAnno anno => (anno.serialize).map (fun l => 0x1d :: l)
  | .ValueNull => some [0x1e]
  | .ValueBoolean b => some [if b then 1 * 32 + 0x1f else 0x1f]

/-- `EncodedArray::serialize`: ULEB128 count (`len as u32`), then each value. -/
def EncodedArray.serialize : EncodedArray → Option (List Nat)
  | .mk values =>
      match encode_uleb128 (values.length % 2^32) with
      | none => none
      | some c => (EVList.serializeAll values).map (fun b => c ++ b)

/-- Serialize each value of an `EVList` in order. -/
def EVList.serializeAll : EVList → Option (List Nat)
  | .nil => some []
  | .cons h t =>
      match h.serialize with
      | none => none
      | some l => (EVList.serializeAll t).map (fun r => l ++ r)

/-- `EncodedAnnotation::serialize`. -/
def EncodedAnno.serialize : EncodedAnno → Option (List Nat)
  | .mk type_idx elements =>
      match encode_uleb128 type_idx with
      | none => none
      | some c1 =>
      match encode_uleb128 (elements.length % 2^32) with
      | none => none
      | some c2 => (AEList.serializeAll elements).map (fun b => c1 ++ c2 ++ b)

/-- `AnnotationElement::serialize`. -/
def AnnoElement.serialize : AnnoElement → Option (List Nat)
  | .mk name_idx value =>
      match encode_uleb128 name_idx with
      | none => none
      | some c => (value.serialize).map (fun b => c ++ b)

/-- Serialize each element of an `AEList` in order. -/
def AEList.serializeAll : AEList → Option (List Nat)
  | .nil => some []
  | .cons h t =>
      match h.serialize with
      | none => none
      | some l => (AEList.serializeAll t).map (fun r => l ++ r)
end

mutual
/-- `EncodedValue::size`.  NOTE (faithful to the source): `ValueByte`, like
`ValueNull` and `ValueBoolean`, is counted as 1 byte, although `serialize`
writes a header byte AND a payload byte for it. -/
def EncodedValue.size : EncodedValue → Option Nat
  | .ValueByte _ => some 1
  | .ValueNull => some 1
  | .ValueBoolean _ => some 1
  | .ValueArray arr => (arr.size).map (1 + ·)
  | .ValueAnno anno => (anno.size).map (1 + ·)
  | .ValueShort v => some (1 + get_required_bytes_signed v)
  | .ValueChar v => some (1 + get_required_bytes_unsigned v)
  | .ValueInt v => some (1 + get_required_bytes_signed v)
  | .ValueLong v => some (1 + get_required_bytes_signed v)
  | .ValueFloat bits => some (1 + get_required_bytes_for_f32 bits)
  | .ValueDouble bits => some (1 + get_required_bytes_for_f64 bits)
  | .ValueMethodType v => some (1 + get_required_bytes_unsigned v)
  | .ValueMethodHandle v => some (1 + get_required_bytes_unsigned v)
  | .ValueString v => some (1 + get_required_bytes_unsigned v)
  | .ValueType v => some (1 + get_required_bytes_unsigned v)
  | .ValueField v => some (1 + get_required_bytes_unsigned v)
  | .ValueMethod v => some (1 + get_required_bytes_unsigned v)
  | .ValueEnum v => some (1 + get_required_bytes_unsigned v)

/-- `EncodedArray::size`. -/
def EncodedArray.size : EncodedArray → Option Nat
  | .mk values =>
      match size_uleb128 (values.length % 2^32) with
      | none => none
      | some c => (EVList.sizeAll values).map (c + ·)

/-- Sum of the sizes of an `EVList`. -/
def EVList.sizeAll : EVList → Option Nat
  | .nil => some 0
  | .cons h t =>
      match h.size with
      | none => none
      | some n => (EVList.sizeAll t).map (n + ·)

/-- `EncodedAnnotation::size`. -/
def EncodedAnno.size : EncodedAnno → Option Nat
  | .mk type_idx elements =>
      match size_uleb128 type_idx with
      | none => none
      | some c1 =>
      match size_uleb128 (elements.length % 2^32) with
      | none => none
      | some c2 => (AEList.sizeAll elements).map (c1 + c2 + ·)

/-- `AnnotationElement::size`. -/
def AnnoElement.size : AnnoElement → Option Nat
  | .mk name_idx value =>
      match size_uleb128 name_idx with
      | none => none
      | some c => (value.size).map (c + ·)

/-- Sum of the sizes of an `AEList`. -/
def AEList.sizeAll : AEList → Option Nat
  | .nil => some 0
  | .cons h t =>
      match h.size with
      | none => none
      | some n => (AEList.sizeAll t).map (n + ·)
end

mutual
/-- `EncodedValue::deserialize` (fueled; each level consumes at least the
header byte, so fuel `2 * |s| + 2` always suffices — see the wrappers). -/
def EncodedValue.parseF : Nat → List Nat → Option (EncodedValue × List Nat)
  | 0, _ => none
  | fuel + 1, s =>
      match decode_u8 s with
      | none => none
      | some (value_byte, s) =>
          let value_arg := value_byte / 32 % 8   -- `(value_byte & 0b11100000) >> 5`
          let value_type := value_byte % 32      -- `value_byte & 0b00011111`
          match value_type with
          | 0x00 =>
              if value_arg = 0 then
                (decode_i8 s).map (fun p => (.ValueByte p.1, p.2))
              else none
          | 0x02 => (decode_nbytes_signed s (value_arg + 1)).map
              (fun p => (.ValueShort (asI16 p.1), p.2))
          | 0x03 => (decode_nbytes_unsigned s (value_arg + 1)).map
              (fun p => (.ValueChar (p.1 % 2^16), p.2))
          | 0x04 => (decode_nbytes_signed s (value_arg + 1)).map
              (fun p => (.ValueInt (asI32 p.1), p.2))
          | 0x06 => (decode_nbytes_signed s (value_arg + 1)).map
              (fun p => (.ValueLong p.1, p.2))
          | 0x10 => (decode_nbytes_as_f32 s (value_arg + 1)).map
              (fun p => (.ValueFloat p.1, p.2))
          | 0x11 => (decode_nbytes_as_f64 s (value_arg + 1)).map
              (fun p => (.ValueDouble p.1, p.2))
          | 0x15 => (decode_nbytes_unsigned s (value_arg + 1)).map
              (fun p => (.ValueMethodType (p.1 % 2^32), p.2))
          | 0x16 => (decode_nbytes_unsigned s (value_arg + 1)).map
              (fun p => (.ValueMethodHandle (p.1 % 2^32), p.2))
          | 0x17 => (decode_nbytes_unsigned s (value_arg + 1)).map
              (fun p => (.ValueString (p.1 % 2^32), p.2))
          | 0x18 => (decode_nbytes_unsigned s (value_arg + 1)).map
              (fun p => (.ValueType (p.1 % 2^32), p.2))
          | 0x19 => (decode_nbytes_unsigned s (value_arg + 1)).map
              (fun p => (.ValueField (p.1 % 2^32), p.2))
          | 0x1a => (decode_nbytes_unsigned s (value_arg + 1)).map
              (fun p => (.ValueMethod (p.1 % 2^32), p.2))
          | 0x1b => (decode_nbytes_unsigned s (value_arg + 1)).map
              (fun p => (.ValueEnum (p.1 % 2^32), p.2))
          | 0x1c =>
              if value_arg = 0 then
                (EncodedArray.parseF fuel s).map (fun p => (.ValueArray p.1, p.2))
              else none
          | 0x1d =>
              if value_arg = 0 then
                (EncodedAnno.parseF fuel s).map (fun p => (.ValueAnno p.1, p.2))
              else none
          | 0x1e => if value_arg = 0 then some (.ValueNull, s) else none
          | 0x1f => some (.ValueBoolean (value_arg != 0), s)
          | _ => none   -- panic!("unexpected value type ..")

/-- `EncodedArray::deserialize` (fueled). -/
def EncodedArray.parseF : Nat → List Nat → Option (EncodedArray × List Nat)
  | 0, _ => none
  | fuel + 1, s =>
      match decode_uleb128 s with
      | none => none
      | some (size, s) =>
          (EVList.parseCountF fuel size s).map (fun p => (.mk p.1, p.2))

/-- Parse `n` encoded values in sequence. -/
def EVList.parseCountF : Nat → Nat → List Nat → Option (EVList × List Nat)
  | 0, _, _ => none
  | _ + 1, 0, s => some (.nil, s)
  | fuel + 1, n + 1, s =>
      match EncodedValue.parseF fuel s with
      | none => none
      | some (v, s1) =>
          (EVList.parseCountF fuel n s1).map (fun p => (.cons v p.1, p.2))

/-- `EncodedAnnotation::deserialize` (fueled). -/
def EncodedAnno.parseF : Nat → List Nat → Option (EncodedAnno × List Nat)
  | 0, _ => none
  | fuel + 1, s =>
      match decode_uleb128 s with
      | none => none
      | some (type_idx, s) =>
      match decode_uleb128 s with
      | none => none
      | some (size, s) =>
          (AEList.parseCountF fuel size s).map (fun p => (.mk type_idx p.1, p.2))

/-- `AnnotationElement::deserialize` (fueled). -/
def AnnoElement.parseF : Nat → List Nat → Option (AnnoElement × List Nat)
  | 0, _ => none
  | fuel + 1, s =>
      match decode_uleb128 s with
      | none => none
      | some (name_idx, s) =>
          (EncodedValue.parseF fuel s).map (fun p => (.mk name_idx p.1, p.2))

/-- Parse `n` annotation elements in sequence. -/
def AEList.parseCountF : Nat → Nat → List Nat → Option (AEList × List Nat)
  | 0, _, _ => none
  | _ + 1, 0, s => some (.nil, s)
  | fuel + 1, n + 1, s =>
      match AnnoElement.parseF fuel s with
      | none => none
      | some (e, s1) =>
          (AEList.parseCountF fuel n s1).map (fun p => (.cons e p.1, p.2))
end

/-- `EncodedArray::deserialize` with sufficient fuel. -/
def EncodedArray.deserialize (s : List Nat) : Option (EncodedArray × List Nat) :=
  EncodedArray.parseF (2 * s.length + 2) s

/-- `EncodedAnnotation::deserialize` with sufficient fuel. -/
def EncodedAnno.deserialize (s : List Nat) : Option (EncodedAnno × List Nat) :=
  EncodedAnno.parseF (2 * s.length + 2) s

/-- `AnnotationItem::deserialize`. -/
def AnnoItem.deserialize (s : List Nat) : Option (AnnoItem × List Nat) :=
  match decode_u8 s with
  | none => none
  | some (visibility, s) =>
      (EncodedAnno.deserialize s).map (fun p => ({ visibility, anno := p.1 }, p.2))

/-- `EncodedArrayItem::deserialize`. -/
def EncodedArrayItem.deserialize (s : List Nat) : Option (EncodedArrayItem × List Nat) :=
  (EncodedArray.deserialize s).map (fun p => ({ value := p.1 }, p.2))

/-! ## Container orchestrator (lib.rs) -/

/-- lib.rs `deserialize_string_data_items` loop body, `size` times. -/
def parse_string_data_items (n : Nat) (s : List Nat) :
    Option (List StringDataItem × List Nat) :=
  parseCount (fun s =>
    match decode_uleb128 s with
    | none => none
    | some (item_size, s) =>
        let p := readUntilZero s
        some ({ utf16_size := item_size, data := p.1 }, p.2)) n s

/-- lib.rs `deserialize_type_lists` loop body, `size` times.  After one list
the cursor has advanced `4 + 2 * list_size` bytes from `initial_position`; a
2-byte pad is consumed (and asserted zero) iff that is not a multiple of 4,
i.e. iff `list_size` is odd. -/
def parse_type_lists (n : Nat) (s : List Nat) : Option (List TypeList × List Nat) :=
  parseCount (fun s =>
    match decode_u32 s with
    | none => none
    | some (list_size, s) =>
    match parseCount TypeItem.deserialize list_size s with
    | none => none
    | some (type_items, s) =>
        if (4 + 2 * list_size) % 4 ≠ 0 then
          match decode_u16 s with
          | none => none
          | some (pad, s) =>
              if pad = 0 then some ({ list := type_items }, s)
              else none                     -- assert!(decode_u16(..) == 0)
        else some ({ list := type_items }, s)) n s

/-- lib.rs `deserialize_annotation_set_ref_lists` loop. -/
def parse_anno_set_ref_lists (n : Nat) (s : List Nat) :
    Option (List AnnoSetRefList × List Nat) :=
  parseCount (fun s =>
    match decode_u32 s with
    | none => none
    | some (list_size, s) =>
        (parseCount AnnoSetRefItem.deserialize list_size s).map
          (fun p => ({ list := p.1 }, p.2))) n s

/-- lib.rs `deserialize_annotation_set_items` loop. -/
def parse_anno_set_items (n : Nat) (s : List Nat) :
    Option (List AnnoSetItem × List Nat) :=
  parseCount (fun s =>
    match decode_u32 s with
    | none => none
    | some (set_size, s) =>
        (parseCount AnnoOffItem.deserialize set_size s).map
          (fun p => ({ entries := p.1 }, p.2))) n s

/-- lib.rs `deserialize_annotation_items` loop. -/
def parse_anno_items (n : Nat) (s : List Nat) : Option (List AnnoItem × List Nat) :=
  parseCount AnnoItem.deserialize n s

/-- lib.rs `deserialize_encoded_array_items` loop. -/
def parse_encoded_array_items (n : Nat) (s : List Nat) :
    Option (List EncodedArrayItem × List Nat) :=
  parseCount EncodedArrayItem.deserialize n s

/-- lib.rs `deserialize_annotations_directory_items` loop. -/
def parse_anno_directory_items (n : Nat) (s : List Nat) :
    Option (List AnnoDirectoryItem × List Nat) :=
  parseCount AnnoDirectoryItem.deserialize n s

/-- lib.rs `deserialize_class_data_items` loop. -/
def parse_class_data_items (n : Nat) (s : List Nat) :
    Option (List ClassDataItem × List Nat) :=
  parseCount ClassDataItem.deserialize n s

/-- lib.rs `deserialize_debug_info_items` loop. -/
def parse_debug_info_items (n : Nat) (s : List Nat) :
    Option (List DebugInfoItem × List Nat) :=
  parseCount DebugInfoItem.deserialize n s

/-- lib.rs `deserialize_code_items`: after each item, burn single bytes until
the ABSOLUTE cursor position is 4-aligned (each burned byte must exist). -/
def parse_code_items (bytes : List Nat) : Nat → Nat → Option (List CodeItem × Nat)
  | 0, pos => some ([], pos)
  | n + 1, pos =>
      match CodeItem.deserialize (bytes.drop pos) with
      | none => none
      | some (item, rest) =>
          let pos1 := bytes.length - rest.length
          let pad := (4 - pos1 % 4) % 4
          if pos1 + pad ≤ bytes.length then
            (parse_code_items bytes n (pos1 + pad)).map (fun p => (item :: p.1, p.2))
          else none

/-- One fixed-width id section: parse `mi.size` records when the map declares
the section, else the empty list (lib.rs `if let Some(..) = map_list...`). -/
def parseSectionAt {α : Type} (p : List Nat → Option (α × List Nat))
    (mi? : Option MapItem) (s : List Nat) : Option (List α × List Nat) :=
  match mi? with
  | some mi => parseCount p mi.size s
  | none => some ([], s)

/-- One data-section view: run its parser at the map entry's offset when the
section is declared, else the empty list (lib.rs `match map_list.get(..)`). -/
def parseViewAt {α : Type} (parser : Nat → List Nat → Option (List α × List Nat))
    (mi? : Option MapItem) (bytes : List Nat) : Option (List α) :=
  match mi? with
  | some mi => (parser mi.size (bytes.drop mi.offset)).map Prod.fst
  | none => some []

/-- The code-item view (absolute-position parser). -/
def parseCodeViewAt (mi? : Option MapItem) (bytes : List Nat) : Option (List CodeItem) :=
  match mi? with
  | some mi => (parse_code_items bytes mi.size mi.offset).map Prod.fst
  | none => some []

/-- `unimplemented!("hope this never happens lol")` when a hiddenapi section
is declared. -/
def hiddenapiGuard (mi? : Option MapItem) : Option Unit :=
  match mi? with
  | some _ => none
  | none => some ()

/-- lib.rs `deserialize`, from the materialized byte vector onward.  The
`transmute`-based section reads are byte-identical to the field-order
little-endian readers.  Slice-out-of-bounds panics, `try_into` failures,
checked-arithmetic overflow and the `unimplemented!` hiddenapi arm are `none`. -/
def deserialize (bytes : List Nat) : Option DexFile :=
  match Header.deserialize bytes with
  | none => none
  | some (header, s) =>
  match parseCount StringIdItem.deserialize header.string_ids_size s with
  | none => none
  | some (string_ids, s) =>
  match parseCount TypeIdItem.deserialize header.type_ids_size s with
  | none => none
  | some (type_ids, s) =>
  match parseCount ProtoIdItem.deserialize header.proto_ids_size s with
  | none => none
  | some (proto_ids, s) =>
  match parseCount FieldIdItem.deserialize header.field_ids_size s with
  | none => none
  | some (field_ids, s) =>
  match parseCount MethodIdItem.deserialize header.method_ids_size s with
  | none => none
  | some (method_ids, s) =>
  match parseCount ClassDefItem.deserialize header.class_defs_size s with
  | none => none
  | some (class_defs, s) =>
  match decode_u32 (bytes.drop header.map_off) with
  | none => none
  | some (map_list_size, _) =>
  match parseCount MapItem.deserialize map_list_size (bytes.drop (header.map_off + 4)) with
  | none => none
  | some (map_items, _) =>
  let map_list : MapList := { list := map_items }
  match parseSectionAt CallSiteIdItem.deserialize (map_list.get 0x0007) s with
  | none => none
  | some (call_site_ids, s) =>
  match parseSectionAt MethodHandleItem.deserialize (map_list.get 0x0008) s with
  | none => none
  | some (method_handles, s) =>
  let i := bytes.length - s.length
  if i + header.data_size ≤ bytes.length then
    let data := (bytes.drop i).take header.data_size
    match parseViewAt parse_string_data_items (map_list.get 0x2002) bytes with
    | none => none
    | some string_data_items =>
    match parseViewAt parse_type_lists (map_list.get 0x1001) bytes with
    | none => none
    | some type_lists =>
    match parseViewAt parse_anno_set_ref_lists (map_list.get 0x1002) bytes with
    | none => none
    | some annotation_set_ref_lists =>
    match parseViewAt parse_anno_set_items (map_list.get 0x1003) bytes with
    | none => none
    | some annotation_set_items =>
    match parseViewAt parse_anno_items (map_list.get 0x2004) bytes with
    | none => none
    | some annotation_items =>
    match parseViewAt parse_anno_directory_items (map_list.get 0x2006) bytes with
    | none => none
    | some annotations_directory_items =>
    match hiddenapiGuard (map_list.get 0xF000) with
    | none => none
    | some _ =>
    match parseViewAt parse_encoded_array_items (map_list.get 0x2005) bytes with
    | none => none
    | some encoded_array_items =>
    match parseViewAt parse_class_data_items (map_list.get 0x2000) bytes with
    | none => none
    | some class_data_items =>
    match parseViewAt parse_debug_info_items (map_list.get 0x2003) bytes with
    | none => none
    | some debug_info_items =>
    match parseCodeViewAt (map_list.get 0x2001) bytes with
    | none => none
    | some code_items =>
    if header.link_off + header.link_size < 2^32 ∧
       header.link_off + header.link_size ≤ bytes.length then
      let link_data := (bytes.drop header.link_off).take header.link_size
      some { header, string_ids, type_ids, proto_ids, field_ids, method_ids,
             class_defs, call_site_ids, method_handles, data, type_lists,
             string_data_items, annotation_set_ref_lists, annotation_set_items,
             annotation_items, annotations_directory_items, encoded_array_items,
             class_data_items, debug_info_items, code_items, link_data, map_list }
    else none
  else none

/-- lib.rs `serialize`: header, then the eight id tables, then the raw `data`
and `link_data` byte vectors (each record emitted by the reverse transmute,
i.e. its field-order little-endian image). -/
def serialize (dex : DexFile) : List Nat :=
  Header.serialize dex.header ++
  emitAll StringIdItem.serialize dex.string_ids ++
  emitAll TypeIdItem.serialize dex.type_ids ++
  emitAll ProtoIdItem.serialize dex.proto_ids ++
  emitAll FieldIdItem.serialize dex.field_ids ++
  emitAll MethodIdItem.serialize dex.method_ids ++
  emitAll ClassDefItem.serialize dex.class_defs ++
  emitAll CallSiteIdItem.serialize dex.call_site_ids ++
  emitAll MethodHandleItem.serialize dex.method_handles ++
  dex.data ++ dex.link_data

/-! ## Spec-side reference definitions and concrete inputs for the claims -/

/-- Modelled from the spec (§4.2): "Signed: read `w` bytes little-endian, then
sign-extend by shifting the result left by `(8-w)*8` bits and
arithmetic-right-shifting back."  Reference point of comparison for the
`decode_nbytes_signed` claim. -/
def specSignExtend (w : Nat) (bytes : List Nat) : Int :=
  wrapS64 (toInt64 (leAccum bytes) * 2^((8 - w) * 8)) / 2^((8 - w) * 8)

/-- Modelled from the spec (§4.2): the float decode's result bit pattern is the
`w` input bytes read little-endian into the low bits then shifted left by
`(4-w)*8` bits.  Reference point of comparison for `decode_nbytes_as_f32`. -/
def specFloatBits32 (w : Nat) (bytes : List Nat) : Nat :=
  leAccum bytes * 2^((4 - w) * 8) % 2^32

/-- Byte offset at which lib.rs `deserialize` starts the `data` slice: header
plus the eight fixed-width id tables. -/
def idBytesEnd (dex : DexFile) : Nat :=
  112 + 4 * dex.string_ids.length + 4 * dex.type_ids.length +
  12 * dex.proto_ids.length + 8 * dex.field_ids.length +
  8 * dex.method_ids.length + 32 * dex.class_defs.length +
  4 * dex.call_site_ids.length + 8 * dex.method_handles.length

/-- A minimal well-formed header: empty id tables, a 4-byte data section at
offset 112 holding an empty map list, no link section. -/
def hdr0 : Header :=
  { magic := [0x64, 0x65, 0x78, 0x0a, 0x30, 0x33, 0x35, 0x00]
    checksum := 0
    signature := [0, 0, 0, 0, 0, 0, 0, 0, 0, 0, 0, 0, 0, 0, 0, 0, 0, 0, 0, 0]
    file_size := 116
    header_size := 112
    endian_tag := 0x12345678
    link_size := 0
    link_off := 0
    map_off := 112
    string_ids_size := 0
    string_ids_off := 0
    type_ids_size := 0
    type_ids_off := 0
    proto_ids_size := 0
    proto_ids_off := 0
    field_ids_size := 0
    field_ids_off := 0
    method_ids_size := 0
    method_ids_off := 0
    class_defs_size := 0
    class_defs_off := 0
    data_size := 4
    data_off := 112 }

/-- A minimal well-formed DEX file image: the 112-byte header followed by a
4-byte data section containing an empty map list. -/
def B0 : List Nat := Header.serialize hdr0 ++ [0, 0, 0, 0]

/-- The model that `deserialize` produces from `B0`. -/
def dex0 : DexFile :=
  { header := hdr0
    string_ids := []
    type_ids := []
    proto_ids := []
    field_ids := []
    method_ids := []
    class_defs := []
    call_site_ids := []
    method_handles := []
    data := [0, 0, 0, 0]
    type_lists := []
    string_data_items := []
    annotation_set_ref_lists := []
    annotation_set_items := []
    annotation_items := []
    annotations_directory_items := []
    encoded_array_items := []
    class_data_items := []
    debug_info_items := []
    code_items := []
    link_data := []
    map_list := { list := [] } }

/-- `dex0` with an inconsistent `file_size` field (the serializer never reads
`file_size`, so this exposes the length claim). -/
def dex8 : DexFile :=
  { dex0 with header := { hdr0 with file_size := 999 } }

/-! # Theorems -/

/-! ## Claim C2: the size law -/

/-- Claim C2 (code bug exhibited): the per-record size law `size(r) =
len(encode(r))` fails for `EncodedValue::ValueByte`: `serialize` writes a
header byte AND a one-byte payload (two bytes total), but `size` counts 1.
`Header::size` likewise returns the `header_size` field while `serialize`
always writes 112 bytes. -/
theorem c2_size_law_valuebyte_bug :
    EncodedValue.serialize (.ValueByte 0) = some [0, 0] ∧
    EncodedValue.size (.ValueByte 0) = some 1 ∧
    Header.size { hdr0 with header_size := 0 } = 0 ∧
    (Header.serialize { hdr0 with header_size := 0 }).length = 112 := by
  refine ⟨rfl, rfl, rfl, rfl⟩

/-! ## Claim C3: decode_nbytes_signed sign extension -/

/-- Claim C3 (code bug exhibited): `decode_nbytes_signed` shifts by `8 - n`
BITS instead of `(8 - n) * 8`, so no sign extension happens: on the single
byte `0x80` with width 1 the code returns `128`, while the specified
sign-extension (`specSignExtend`) yields `-128`. -/
theorem c3_decode_nbytes_signed_bug :
    decode_nbytes_signed [0x80] 1 = some (128, []) ∧
    specSignExtend 1 [0x80] = -128 ∧ (128 : Int) ≠ -128 := by
  refine ⟨rfl, rfl, by decide⟩

/-! ## Claim C4: decode_nbytes_as_f32 bit pattern -/

/-- Claim C4 (code bug exhibited): `decode_nbytes_as_f32` shifts by `4 - n`
BITS instead of `(4 - n) * 8` and then converts the integer NUMERICALLY
(`as f32`) instead of reinterpreting the bits.  On the single byte `0x3f`
with width 1 the claim requires the bit pattern `0x3F000000` (the value 0.5),
but the code computes `0x3f << 3 = 504` and returns `504.0f32`, whose bit
pattern is `0x43FC0000`. -/
theorem c4_decode_nbytes_as_f32_bug :
    decode_nbytes_as_f32 [0x3f] 1 = some (0x43FC0000, []) ∧
    specFloatBits32 1 [0x3f] = 0x3F000000 ∧ (0x43FC0000 : Nat) ≠ 0x3F000000 := by
  refine ⟨rfl, rfl, by decide⟩

/-! ## Claim C8: serialized length vs header.file_size -/

/-- Claim C8, counterexample: `serialize` never reads `header.file_size`; on a
model whose `file_size` field is inconsistent the output length differs. -/
theorem c8_file_size_counterexample :
    (serialize dex8).length = 116 ∧ dex8.header.file_size = 999 ∧
    (serialize dex8).length ≠ dex8.header.file_size := by
  refine ⟨rfl, rfl, by decide⟩

/-- Length of a concatenation of fixed-size encodings. -/
theorem emitAll_length {α : Type} (f : α → List Nat) (k : Nat)
    (hf : ∀ a, (f a).length = k) : ∀ l : List α, (emitAll f l).length = k * l.length := by
  intro l
  induction l with
  | nil => simp [emitAll]
  | cons a t ih => simp [emitAll, hf a, ih, Nat.mul_succ]; omega

/-- Claim C8, amended: the serialized length is the header (112 bytes, given
the fixed-size `magic` and `signature` arrays) plus the id tables at their
fixed record sizes plus the raw `data` and `link_data` vectors.  It equals
`header.file_size` only when that field is consistent with the model. -/
theorem c8_serialize_length (dex : DexFile)
    (hm : dex.header.magic.length = 8) (hs : dex.header.signature.length = 20) :
    (serialize dex).length = idBytesEnd dex + dex.data.length + dex.link_data.length := by
  have h1 := emitAll_length StringIdItem.serialize 4 (fun a => rfl) dex.string_ids
  have h2 := emitAll_length TypeIdItem.serialize 4 (fun a => rfl) dex.type_ids
  have h3 := emitAll_length ProtoIdItem.serialize 12 (fun a => rfl) dex.proto_ids
  have h4 := emitAll_length FieldIdItem.serialize 8 (fun a => rfl) dex.field_ids
  have h5 := emitAll_length MethodIdItem.serialize 8 (fun a => rfl) dex.method_ids
  have h6 := emitAll_length ClassDefItem.serialize 32 (fun a => rfl) dex.class_defs
  have h7 := emitAll_length CallSiteIdItem.serialize 4 (fun a => rfl) dex.call_site_ids
  have h8 := emitAll_length MethodHandleItem.serialize 8 (fun a => rfl) dex.method_handles
  simp [serialize, Header.serialize, idBytesEnd, u32le, h1, h2, h3, h4, h5, h6, h7, h8,
    hm, hs]
  omega

/-- Witness for `c8_serialize_length` at the concrete model `dex0`. -/
theorem c8_serialize_length_witness :
    (serialize dex0).length = idBytesEnd dex0 + dex0.data.length + dex0.link_data.length :=
  c8_serialize_length dex0 (by decide) (by decide)

/-! ## Claim C7: over-long LEB128 input -/

/-- Claim C7, counterexample: five continuation-flagged bytes are NOT a fatal
decode error for `decode_sleb128` — it consumes exactly five bytes and
returns the value 0. -/
theorem c7_overlong_sleb_counterexample :
    decode_sleb128 [0x80, 0x80, 0x80, 0x80, 0x80] = some (0, []) := by rfl

/-- Claim C7, amended: on an input whose first five bytes all carry the
continuation bit, `decode_sleb128` consumes exactly five bytes and returns a
value (its fifth byte is consumed unconditionally, continuation bit ignored),
while `decode_uleb128` keeps looping and aborts (checked shift overflow at
`shift = 35`, a panic in debug builds) — only the encoders enforce the 5-byte
bound for the 32-bit domain. -/
theorem c7_overlong_leb128 (b0 b1 b2 b3 b4 : Nat) (rest : List Nat)
    (h0 : 128 ≤ b0 % 256) (h1 : 128 ≤ b1 % 256) (h2 : 128 ≤ b2 % 256)
    (h3 : 128 ≤ b3 % 256) (h4 : 128 ≤ b4 % 256) :
    (∃ v, decode_sleb128 (b0 :: b1 :: b2 :: b3 :: b4 :: rest) = some (v, rest)) ∧
    decode_uleb128 (b0 :: b1 :: b2 :: b3 :: b4 :: rest) = none := by
  constructor
  · have h : decode_sleb128 (b0 :: b1 :: b2 :: b3 :: b4 :: rest)
        = some (toInt32 (b0 % 256 % 128 + b1 % 256 % 128 * 2^7 + b2 % 256 % 128 * 2^14
            + b3 % 256 % 128 * 2^21 + b4 % 256 * 2^28 % 2^32), rest) := by
      simp only [decode_sleb128]
      rw [if_neg (by omega), if_neg (by omega), if_neg (by omega), if_neg (by omega)]
    exact ⟨_, h⟩
  · simp only [decode_uleb128, decodeUlebGo]
    rw [if_neg (by decide), if_neg (by omega), if_neg (by decide), if_neg (by omega),
        if_neg (by decide), if_neg (by omega), if_neg (by decide), if_neg (by omega),
        if_neg (by decide), if_neg (by omega)]
    cases rest with
    | nil => rfl
    | cons b r => simp [decodeUlebGo]

/-- Witness for `c7_overlong_leb128` at the concrete input `[0x80; 5]`. -/
theorem c7_overlong_leb128_witness :
    (∃ v, decode_sleb128 [0x80, 0x80, 0x80, 0x80, 0x80] = some (v, [])) ∧
    decode_uleb128 [0x80, 0x80, 0x80, 0x80, 0x80] = none :=
  c7_overlong_leb128 0x80 0x80 0x80 0x80 0x80 [] (by decide) (by decide)
    (by decide) (by decide) (by decide)

theorem ulebGo_roundtrip : ∀ (fuel x shift acc : Nat) (rest : List Nat),
    x < 128^(fuel+1) → x < 2^(32-shift) → shift < 32 → acc < 2^shift →
    ∃ l, encodeUlebGo (fuel+1) x = some l ∧
      decodeUlebGo (l ++ rest) acc shift = some (acc + x * 2^shift, rest) := by
  intro fuel
  induction fuel with
  | zero =>
      intro x shift acc rest hx h32 hs hacc
      have hx128 : x < 128 := by
        simpa using hx
      have hdiv : x / 128 = 0 := by omega
      have hxs : x * 2^shift < 2^32 := by
        have : (2:Nat)^32 = 2^(32-shift) * 2^shift := by
          rw [← pow_add]; congr 1; omega
        rw [this]
        exact Nat.mul_lt_mul_right (Nat.pos_pow_of_pos shift (by norm_num)) |>.mpr h32
      refine ⟨[x % 128], ?_, ?_⟩
      · simp [encodeUlebGo, hdiv]
      · simp only [List.cons_append, List.nil_append, decodeUlebGo]
        rw [if_neg (by omega)]
        have h1 : x % 128 % 256 % 128 = x := by omega
        have h2 : x % 128 % 256 < 128 := by omega
        rw [if_pos h2]
        simp only [h1]
        rw [Nat.mod_eq_of_lt hxs]
        rfl
  | succ fuel ih =>
      intro x shift acc rest hx h32 hs hacc
      by_cases hdiv : x / 128 = 0
      · have hx128 : x < 128 := by omega
        have hxs : x * 2^shift < 2^32 := by
          have : (2:Nat)^32 = 2^(32-shift) * 2^shift := by
            rw [← pow_add]; congr 1; omega
          rw [this]
          exact Nat.mul_lt_mul_right (Nat.pos_pow_of_pos shift (by norm_num)) |>.mpr h32
        refine ⟨[x % 128], ?_, ?_⟩
        · simp [encodeUlebGo, hdiv]
        · simp only [List.cons_append, List.nil_append, decodeUlebGo]
          rw [if_neg (by omega)]
          have h1 : x % 128 % 256 % 128 = x := by omega
          have h2 : x % 128 % 256 < 128 := by omega
          rw [if_pos h2]
          simp only [h1]
          rw [Nat.mod_eq_of_lt hxs]
          rfl
      · -- continuation byte
        have hx128 : 128 ≤ x := by omega
        have hshift24 : shift ≤ 24 := by
          by_contra hc
          have h1 : 32 - shift ≤ 7 := by omega
          have : (2:Nat)^(32-shift) ≤ 2^7 := Nat.pow_le_pow_right (by norm_num) h1
          omega
        have hx' : x / 128 < 128^(fuel+1) := by
          rw [Nat.div_lt_iff_lt_mul (by norm_num)]
          calc x < 128^(fuel+1+1) := hx
            _ = 128^(fuel+1) * 128 := by rw [pow_succ]
        have h32' : x / 128 < 2^(32-(shift+7)) := by
          rw [Nat.div_lt_iff_lt_mul (by norm_num)]
          have : (2:Nat)^(32-shift) = 2^(32-(shift+7)) * 128 := by
            have : (128:Nat) = 2^7 := by norm_num
            rw [this, ← pow_add]
            congr 1; omega
          omega
        have hacc' : acc + x % 128 * 2^shift < 2^(shift+7) := by
          have hP7 : (2:Nat)^(shift+7) = 2^shift * 128 := by
            rw [pow_add]; norm_num
          have : x % 128 * 2^shift ≤ 127 * 2^shift :=
            Nat.mul_le_mul_right _ (by omega)
          omega
        obtain ⟨l', henc', hdec'⟩ :=
          ih (x / 128) (shift + 7) (acc + x % 128 * 2^shift) rest hx' h32' (by omega) hacc'
        have hmodsmall : x % 128 * 2^shift < 2^32 := by
          have h1 : x % 128 * 2^shift ≤ 127 * 2^shift := Nat.mul_le_mul_right _ (by omega)
          have h2 : (127:Nat) * 2^shift < 2^32 := by
            have : (2:Nat)^shift ≤ 2^24 := Nat.pow_le_pow_right (by norm_num) hshift24
            omega
          omega
        refine ⟨(x % 128 + 128) :: l', ?_, ?_⟩
        · have h0 : encodeUlebGo (fuel + 1 + 1) x
              = (encodeUlebGo (fuel + 1) (x / 128)).map (fun l => (x % 128 + 128) :: l) := by
            conv_lhs => rw [encodeUlebGo]
            rw [if_neg hdiv]
          rw [h0, henc']
          rfl
        · simp only [List.cons_append, decodeUlebGo]
          rw [if_neg (by omega)]
          have h1 : (x % 128 + 128) % 256 = x % 128 + 128 := by omega
          rw [h1]
          rw [if_neg (by omega)]
          have h2 : (x % 128 + 128) % 128 = x % 128 := by omega
          rw [h2, Nat.mod_eq_of_lt hmodsmall]
          have hP7 : (2:Nat)^(shift+7) = 2^shift * 128 := by
            rw [pow_add]; norm_num
          have hx2 : 128 * (x / 128) + x % 128 = x := Nat.div_add_mod x 128
          have hval : acc + x % 128 * 2^shift + x / 128 * 2^(shift+7) = acc + x * 2^shift := by
            calc acc + x % 128 * 2^shift + x / 128 * 2^(shift+7)
                = acc + (128 * (x/128) + x % 128) * 2^shift := by rw [hP7]; ring
              _ = acc + x * 2^shift := by rw [hx2]
          rw [← hval]
          exact hdec'

theorem uleb128_roundtrip (x : Nat) (rest : List Nat) (hx : x < 2^32) :
    ∃ l, encode_uleb128 x = some l ∧ decode_uleb128 (l ++ rest) = some (x, rest) := by
  obtain ⟨l, he, hd⟩ := ulebGo_roundtrip 4 x 0 0 rest (by norm_num; omega) (by omega)
    (by norm_num) (by norm_num)
  exact ⟨l, he, by simpa using hd⟩

theorem sleb_case1 (x : Int) (rest : List Nat) (hlo : -64 ≤ x) (hhi : x < 64) :
    ∃ l, encode_sleb128 x = some l ∧ decode_sleb128 (l ++ rest) = some (x, rest) := by
  refine ⟨[(x % 128).toNat], ?_, ?_⟩
  · unfold encode_sleb128
    conv_lhs => rw [encodeSlebGo]
    rw [if_pos (by omega)]
  · simp only [List.cons_append, List.nil_append, decode_sleb128]
    rw [if_pos (by omega)]
    simp only [shl32, sar32, toInt32, Option.some.injEq, Prod.mk.injEq]
    split_ifs <;> (constructor <;> first | omega | trivial)

theorem sleb_case2 (x : Int) (rest : List Nat) (hlo : -(2^13) ≤ x) (hhi : x < 2^13)
    (hout : x < -64 ∨ 64 ≤ x) :
    ∃ l, encode_sleb128 x = some l ∧ decode_sleb128 (l ++ rest) = some (x, rest) := by
  have h1 : encodeSlebGo 3 (x / 128) = some [((x / 128) % 128).toNat] := by
    conv_lhs => rw [encodeSlebGo]
    rw [if_pos (by omega)]
  refine ⟨[(x % 128).toNat + 128, ((x / 128) % 128).toNat], ?_, ?_⟩
  · unfold encode_sleb128
    conv_lhs => rw [encodeSlebGo]
    rw [if_neg (by omega), h1]
    rfl
  · simp only [List.cons_append, List.nil_append, decode_sleb128]
    rw [if_neg (by omega), if_pos (by omega)]
    simp only [shl32, sar32, toInt32, Option.some.injEq, Prod.mk.injEq]
    split_ifs <;> (constructor <;> first | omega | trivial)

theorem sleb_case3 (x : Int) (rest : List Nat) (hlo : -(2^20) ≤ x) (hhi : x < 2^20)
    (hout : x < -(2^13) ∨ 2^13 ≤ x) :
    ∃ l, encode_sleb128 x = some l ∧ decode_sleb128 (l ++ rest) = some (x, rest) := by
  have h2 : encodeSlebGo 2 (x / 128 / 128) = some [((x / 128 / 128) % 128).toNat] := by
    conv_lhs => rw [encodeSlebGo]
    rw [if_pos (by omega)]
  have h1 : encodeSlebGo 3 (x / 128)
      = some [((x / 128) % 128).toNat + 128, ((x / 128 / 128) % 128).toNat] := by
    conv_lhs => rw [encodeSlebGo]
    rw [if_neg (by omega), h2]
    rfl
  refine ⟨[(x % 128).toNat + 128, ((x / 128) % 128).toNat + 128,
           ((x / 128 / 128) % 128).toNat], ?_, ?_⟩
  · unfold encode_sleb128
    conv_lhs => rw [encodeSlebGo]
    rw [if_neg (by omega), h1]
    rfl
  · simp only [List.cons_append, List.nil_append, decode_sleb128]
    rw [if_neg (by omega), if_neg (by omega), if_pos (by omega)]
    simp only [shl32, sar32, toInt32, Option.some.injEq, Prod.mk.injEq]
    split_ifs <;> (constructor <;> first | omega | trivial)

set_option maxHeartbeats 1000000 in
theorem sleb_case4 (x : Int) (rest : List Nat) (hlo : -(2^27) ≤ x) (hhi : x < 2^27)
    (hout : x < -(2^20) ∨ 2^20 ≤ x) :
    ∃ l, encode_sleb128 x = some l ∧ decode_sleb128 (l ++ rest) = some (x, rest) := by
  have h3 : encodeSlebGo 1 (x / 128 / 128 / 128)
      = some [((x / 128 / 128 / 128) % 128).toNat] := by
    conv_lhs => rw [encodeSlebGo]
    rw [if_pos (by omega)]
  have h2 : encodeSlebGo 2 (x / 128 / 128)
      = some [((x / 128 / 128) % 128).toNat + 128, ((x / 128 / 128 / 128) % 128).toNat] := by
    conv_lhs => rw [encodeSlebGo]
    rw [if_neg (by omega), h3]
    rfl
  have h1 : encodeSlebGo 3 (x / 128)
      = some [((x / 128) % 128).toNat + 128, ((x / 128 / 128) % 128).toNat + 128,
              ((x / 128 / 128 / 128) % 128).toNat] := by
    conv_lhs => rw [encodeSlebGo]
    rw [if_neg (by omega), h2]
    rfl
  refine ⟨[(x % 128).toNat + 128, ((x / 128) % 128).toNat + 128,
           ((x / 128 / 128) % 128).toNat + 128, ((x / 128 / 128 / 128) % 128).toNat], ?_, ?_⟩
  · unfold encode_sleb128
    conv_lhs => rw [encodeSlebGo]
    rw [if_neg (by omega), h1]
    rfl
  · simp only [List.cons_append, List.nil_append, decode_sleb128]
    rw [if_neg (by omega), if_neg (by omega), if_neg (by omega), if_pos (by omega)]
    simp only [shl32, sar32, toInt32, Option.some.injEq, Prod.mk.injEq]
    split_ifs <;> (constructor <;> first | omega | trivial)

theorem sleb128_roundtrip (x : Int) (rest : List Nat)
    (hlo : -(2^27) ≤ x) (hhi : x < 2^27) :
    ∃ l, encode_sleb128 x = some l ∧ decode_sleb128 (l ++ rest) = some (x, rest) := by
  by_cases h1 : -64 ≤ x ∧ x < 64
  · exact sleb_case1 x rest h1.1 h1.2
  by_cases h2 : -(2^13) ≤ x ∧ x < 2^13
  · exact sleb_case2 x rest h2.1 h2.2 (by omega)
  by_cases h3 : -(2^20) ≤ x ∧ x < 2^20
  · exact sleb_case3 x rest h3.1 h3.2 (by omega)
  · exact sleb_case4 x rest hlo hhi (by omega)

theorem uleb128p1_roundtrip (x : Int) (rest : List Nat)
    (hlo : -(2^31) ≤ x) (hhi : x ≤ 2^31 - 2) :
    ∃ l, encode_uleb128p1 x = some l ∧ decode_uleb128p1 (l ++ rest) = some (x, rest) := by
  have hne : x ≠ 2^31 - 1 := by omega
  have hu : toU32 (x + 1) < 2^32 := by unfold toU32; omega
  obtain ⟨l, he, hd⟩ := uleb128_roundtrip (toU32 (x + 1)) rest hu
  refine ⟨l, ?_, ?_⟩
  · unfold encode_uleb128p1
    rw [if_neg hne]
    exact he
  · unfold decode_uleb128p1
    rw [hd]
    dsimp only
    rw [if_neg (by unfold toU32; omega)]
    simp only [Option.some.injEq, Prod.mk.injEq]
    
    exact ⟨by unfold toInt32 toU32; split_ifs <;> omega, trivial⟩

/-! ## Claim C5: LEB128 round-trip identities -/

/-- Claim C5, counterexample: `encode_sleb128` PANICS ("Bad sleb128 encode")
on any `i32` needing five SLEB128 bytes — its `bytes_written > 4` guard runs
after every write without the encoder's loop having stopped (unlike
`encode_uleb128`, whose `break` precedes the guard).  So the signed round trip
fails at `x = 2^27`. -/
theorem c5_sleb128_counterexample :
    encode_sleb128 (2^27) = none ∧
    (encode_sleb128 (2^27)).bind decode_sleb128 = none := by
  refine ⟨rfl, rfl⟩

/-- Claim C5, amended: `decode_uleb128 ∘ encode_uleb128 = id` on `[0, 2^32)`;
`decode_sleb128 ∘ encode_sleb128 = id` only on `[-2^27, 2^27)` (outside,
`encode_sleb128` panics); `decode_uleb128p1 ∘ encode_uleb128p1 = id` on
`[-2^31, 2^31 - 2]` (at `i32::MAX`, the checked `+ 1` overflows). -/
theorem c5_leb128_roundtrips :
    (∀ (x : Nat) (rest : List Nat), x < 2^32 →
       ∃ l, encode_uleb128 x = some l ∧ decode_uleb128 (l ++ rest) = some (x, rest)) ∧
    (∀ (x : Int) (rest : List Nat), -(2^27) ≤ x → x < 2^27 →
       ∃ l, encode_sleb128 x = some l ∧ decode_sleb128 (l ++ rest) = some (x, rest)) ∧
    (∀ (x : Int) (rest : List Nat), -(2^31) ≤ x → x ≤ 2^31 - 2 →
       ∃ l, encode_uleb128p1 x = some l ∧ decode_uleb128p1 (l ++ rest) = some (x, rest)) :=
  ⟨fun x rest hx => uleb128_roundtrip x rest hx,
   fun x rest hlo hhi => sleb128_roundtrip x rest hlo hhi,
   fun x rest hlo hhi => uleb128p1_roundtrip x rest hlo hhi⟩

/-- Witness for `c5_leb128_roundtrips` at `11016`, `1`, and `-1`. -/
theorem c5_leb128_roundtrips_witness :
    (∃ l, encode_uleb128 11016 = some l ∧ decode_uleb128 (l ++ []) = some (11016, [])) ∧
    (∃ l, encode_sleb128 1 = some l ∧ decode_sleb128 (l ++ []) = some (1, [])) ∧
    (∃ l, encode_uleb128p1 (-1) = some l ∧ decode_uleb128p1 (l ++ []) = some (-1, [])) :=
  ⟨c5_leb128_roundtrips.1 11016 [] (by norm_num),
   c5_leb128_roundtrips.2.1 1 [] (by norm_num) (by norm_num),
   c5_leb128_roundtrips.2.2 (-1) [] (by norm_num) (by norm_num)⟩

/-- `natSize f v ≤ m ↔ v < 2^m` for `v < 2^f`: fueled bit-length
characterization. -/
theorem natSize_le : ∀ (f v m : Nat), v < 2^f → (natSize f v ≤ m ↔ v < 2^m) := by
  intro f
  induction f with
  | zero =>
      intro v m hv
      have hv0 : v = 0 := by simpa using hv
      subst hv0
      simp [natSize, Nat.pos_pow_of_pos]
  | succ f ih =>
      intro v m hv
      by_cases hv0 : v = 0
      · subst hv0
        simp [natSize, Nat.pos_pow_of_pos]
      · have h2 : (2:Nat)^(f+1) = 2 * 2^f := by rw [pow_succ]; ring
        have hdiv : v / 2 < 2^f := by omega
        cases m with
        | zero =>
            simp only [natSize, if_neg hv0, pow_zero]
            omega
        | succ m' =>
            have ihh := ih (v/2) m' hdiv
            have h2m : (2:Nat)^(m'+1) = 2 * 2^m' := by rw [pow_succ]; ring
            simp only [natSize, if_neg hv0]
            constructor
            · intro h
              have := ihh.mp (by omega)
              omega
            · intro h
              have := ihh.mpr (by omega)
              omega

/-! ## Claim C6: minimum signed width -/

/-- Claim C6: for every `i64` value `v`, `get_required_bytes_signed v` is the
LEAST width `w ∈ [1..8]` such that `v` fits in `w` bytes two's complement
(`-2^(8w-1) ≤ v < 2^(8w-1)`); the "bump" for positive values whose exact-fit
width has its top bit set is exactly what minimality with respect to
sign-extended decoding requires.  In particular `get_required_bytes_signed 239
= 2`. -/
theorem c6_get_required_bytes_signed (v : Int) (hlo : -(2^63) ≤ v) (hhi : v < 2^63) :
    (1 ≤ get_required_bytes_signed v ∧ get_required_bytes_signed v ≤ 8) ∧
    (-((2:Int)^(8 * get_required_bytes_signed v - 1)) ≤ v ∧
     v < (2:Int)^(8 * get_required_bytes_signed v - 1)) ∧
    (∀ w, 1 ≤ w → -((2:Int)^(8 * w - 1)) ≤ v → v < (2:Int)^(8 * w - 1) →
      get_required_bytes_signed v ≤ w) ∧
    get_required_bytes_signed 239 = 2 := by
  have hcast : ∀ k : Nat, ((2^k : Nat) : Int) = (2:Int)^k := by
    intro k; push_cast; ring
  by_cases hneg : v < 0
  · -- negative branch: bits = size(|v| - 1) + 1
    have htu : toU64 v = (v + 2^64).toNat := by
      unfold toU64
      congr 1
      omega
    have hc : 2^64 - 1 - toU64 v = (-v - 1).toNat := by
      rw [htu]; omega
    set s := natSize 64 ((-v - 1).toNat) with hs
    have hlt64 : (-v - 1).toNat < 2^64 := by omega
    have hchar : ∀ m, s ≤ m ↔ (-v - 1).toNat < 2^m :=
      fun m => natSize_le 64 ((-v - 1).toNat) m hlt64
    have hs63 : s ≤ 63 := by
      rw [hchar 63]
      have := hcast 63
      omega
    have hw : get_required_bytes_signed v = s / 8 + 1 := by
      unfold get_required_bytes_signed leadingOnes64
      rw [if_pos hneg, hc, ← hs]
      omega
    have hfit : (-v - 1).toNat < 2^(8 * (s / 8 + 1) - 1) := by
      rw [← hchar]
      omega
    have hfitI : -((2:Int)^(8 * (s / 8 + 1) - 1)) ≤ v := by
      have := hcast (8 * (s / 8 + 1) - 1)
      omega
    refine ⟨⟨by omega, ?_⟩, ⟨by rw [hw]; exact hfitI, ?_⟩, ?_, by rfl⟩
    · rw [hw]; omega
    · rw [hw]
      have h1 : (0:Int) < (2:Int)^(8 * (s / 8 + 1) - 1) := by positivity
      omega
    · intro w hw1 hwlo hwhi
      rw [hw]
      by_contra hcon
      have hwle : w ≤ s / 8 := by omega
      have h8 : 8 * w - 1 ≤ s - 1 := by omega
      have hns : s ≤ 8 * w - 1 := by
        rw [hchar]
        have := hcast (8 * w - 1)
        omega
      omega
  · -- non-negative branch
    push_neg at hneg
    have htu : toU64 v = v.toNat := by
      unfold toU64
      congr 1
      omega
    set s := natSize 64 v.toNat with hs
    have hlt64 : v.toNat < 2^64 := by
      have := hcast 64
      have := hcast 63
      omega
    have hchar : ∀ m, s ≤ m ↔ v.toNat < 2^m :=
      fun m => natSize_le 64 v.toNat m hlt64
    have hs63 : s ≤ 63 := by
      rw [hchar 63]
      have := hcast 63
      omega
    have hself : v.toNat < 2^s := by
      rw [← hchar]
    by_cases hz : s = 0
    · have hv0 : v = 0 := by
        have := hchar 0
        simp [hz] at this
        omega
      have hw : get_required_bytes_signed v = 1 := by
        unfold get_required_bytes_signed leadingZeros64
        rw [if_neg (by omega), htu, ← hs, hz]
        norm_num
      rw [hw, hv0]
      refine ⟨⟨by omega, by omega⟩, ⟨by norm_num, by norm_num⟩, ?_, by rfl⟩
      intro w hw1 _ _
      omega
    · have hw : get_required_bytes_signed v =
          (if s % 8 = 0 then s / 8 + 1 else (s + 7) / 8) := by
        unfold get_required_bytes_signed leadingZeros64
        rw [if_neg (by omega), htu, ← hs]
        have h64 : 64 - (64 - s) = s := by omega
        rw [h64]
        dsimp only
        rw [if_neg hz]
        split_ifs <;> omega
      set w0 := (if s % 8 = 0 then s / 8 + 1 else (s + 7) / 8) with hw0
      have hwge : 1 ≤ w0 ∧ w0 ≤ 8 := by
        rw [hw0]; split_ifs <;> omega
      have hsfit : s ≤ 8 * w0 - 1 := by
        rw [hw0]; split_ifs <;> omega
      have hfitN : v.toNat < 2^(8 * w0 - 1) := by rw [← hchar]; exact hsfit
      have hfitI : v < (2:Int)^(8 * w0 - 1) := by
        have := hcast (8 * w0 - 1)
        omega
      rw [hw]
      refine ⟨hwge, ⟨?_, hfitI⟩, ?_, by rfl⟩
      · have h1 : (0:Int) < (2:Int)^(8 * w0 - 1) := by positivity
        omega
      · intro w hw1 hwlo hwhi
        by_contra hcon
        have h8 : 8 * w - 1 < s := by
          rw [hw0] at hcon
          split_ifs at hcon <;> omega
        have hns : s ≤ 8 * w - 1 := by
          rw [hchar]
          have := hcast (8 * w - 1)
          omega
        omega

/-- Witness for `c6_get_required_bytes_signed` at `v = 239`. -/
theorem c6_get_required_bytes_signed_witness : get_required_bytes_signed 239 = 2 :=
  (c6_get_required_bytes_signed 239 (by norm_num) (by norm_num)).2.2.2

/-! ## Claim C9: TypeList padding -/

/-- `decode_u32` reads back exactly what `u32le` wrote. -/
theorem decode_u32_u32le (x : Nat) (r : List Nat) (hx : x < 2^32) :
    decode_u32 (u32le x ++ r) = some (x, r) := by
  simp only [u32le, List.cons_append, List.nil_append, decode_u32,
    Option.some.injEq, Prod.mk.injEq]
  exact ⟨by omega, trivial⟩

/-- Parsing `n` type items consumes exactly `2n` bytes. -/
theorem parse_type_items (n : Nat) : ∀ (body rest : List Nat),
    body.length = 2 * n →
    ∃ items, parseCount TypeItem.deserialize n (body ++ rest) = some (items, rest) ∧
      items.length = n := by
  induction n with
  | zero =>
      intro body rest hb
      have : body = [] := by
        cases body with
        | nil => rfl
        | cons a t => simp at hb
      subst this
      exact ⟨[], rfl, rfl⟩
  | succ n ih =>
      intro body rest hb
      match body, hb with
      | b0 :: b1 :: body', hb =>
        have hb' : body'.length = 2 * n := by simp at hb; omega
        obtain ⟨items, hp, hlen⟩ := ih body' rest hb'
        refine ⟨{ type_idx := b0 % 256 + 256 * (b1 % 256) } :: items, ?_, by simp [hlen]⟩
        simp only [List.cons_append, parseCount, TypeItem.deserialize, decode_u16,
          Option.map]
        rw [hp]

/-- Claim C9, counterexample: the ENCODER emits no pad: a one-element
`TypeList` serializes to 6 bytes (not a multiple of 4, no trailing zero pad).
Only the decoder (lib.rs `deserialize_type_lists`) handles the pad. -/
theorem c9_typelist_pad_counterexample :
    TypeList.serialize { list := [{ type_idx := 5 }] } = [1, 0, 0, 0, 5, 0] ∧
    (TypeList.serialize { list := [{ type_idx := 5 }] }).length % 4 ≠ 0 :=
  ⟨rfl, by decide⟩

/-- Claim C9, amended: the DECODER (lib.rs `deserialize_type_lists`) consumes
a 2-byte zero pad after the type indices iff the count is odd (and requires it
to be zero), but `TypeList::serialize` emits no pad — every encoded TypeList
occupies exactly `4 + 2 * count` bytes. -/
theorem c9_typelist_pad (n : Nat) (body rest : List Nat) (hn : n < 2^32)
    (hb : body.length = 2 * n) :
    (n % 2 = 1 → ∃ tl : TypeList, tl.list.length = n ∧
       parse_type_lists 1 (u32le n ++ (body ++ (0 :: 0 :: rest))) = some ([tl], rest)) ∧
    (n % 2 = 0 → ∃ tl : TypeList, tl.list.length = n ∧
       parse_type_lists 1 (u32le n ++ (body ++ rest)) = some ([tl], rest)) ∧
    (∀ tl : TypeList, (TypeList.serialize tl).length = 4 + 2 * tl.list.length) := by
  refine ⟨?_, ?_, ?_⟩
  · intro hodd
    obtain ⟨items, hp, hlen⟩ := parse_type_items n body (0 :: 0 :: rest) hb
    refine ⟨{ list := items }, hlen, ?_⟩
    simp only [parse_type_lists, parseCount]
    rw [decode_u32_u32le n (body ++ (0 :: 0 :: rest)) hn]
    dsimp only
    rw [hp]
    dsimp only
    rw [if_pos (by omega)]
    rfl
  · intro heven
    obtain ⟨items, hp, hlen⟩ := parse_type_items n body rest hb
    refine ⟨{ list := items }, hlen, ?_⟩
    simp only [parse_type_lists, parseCount]
    rw [decode_u32_u32le n (body ++ rest) hn]
    dsimp only
    rw [hp]
    dsimp only
    rw [if_neg (by omega)]
  · intro tl
    have := emitAll_length TypeItem.serialize 2 (fun a => rfl) tl.list
    simp [TypeList.serialize, u32le, this]
    omega

/-- Witness for `c9_typelist_pad` at a one-element (odd) type list. -/
theorem c9_typelist_pad_witness :
    (∃ tl : TypeList, tl.list.length = 1 ∧
       parse_type_lists 1 (u32le 1 ++ ([5, 0] ++ (0 :: 0 :: []))) = some ([tl], [])) ∧
    (TypeList.serialize { list := [{ type_idx := 5 }] }).length
      = 4 + 2 * (TypeList.mk [{ type_idx := 5 }]).list.length :=
  ⟨(c9_typelist_pad 1 [5, 0] [] (by norm_num) (by decide)).1 (by decide),
   (c9_typelist_pad 1 [5, 0] [] (by norm_num) (by decide)).2.2 { list := [{ type_idx := 5 }] }⟩

/-! ## Claim C10: EncodedCatchHandler invariant -/

/-- `parseCount` returns exactly `n` records when it succeeds. -/
theorem parseCount_length {α : Type} (p : List Nat → Option (α × List Nat)) :
    ∀ (n : Nat) (s : List Nat) (l : List α) (r : List Nat),
      parseCount p n s = some (l, r) → l.length = n := by
  intro n
  induction n with
  | zero =>
      intro s l r h
      simp only [parseCount, Option.some.injEq, Prod.mk.injEq] at h
      simp [← h.1]
  | succ n ih =>
      intro s l r h
      simp only [parseCount] at h
      cases hp : p s with
      | none => rw [hp] at h; exact absurd h (by simp)
      | some a =>
          obtain ⟨a1, a2⟩ := a
          rw [hp] at h
          dsimp only at h
          cases hq : parseCount p n a2 with
          | none => rw [hq] at h; exact absurd h (by simp)
          | some b =>
              obtain ⟨b1, b2⟩ := b
              rw [hq] at h
              dsimp only at h
              simp only [Option.some.injEq, Prod.mk.injEq] at h
              have := ih a2 b1 b2 hq
              simp [← h.1, this]

/-- `EncodedTypeAddressPair` round-trips for `u32` fields. -/
theorem pair_roundtrip (p : EncodedTypeAddressPair) (rest : List Nat)
    (h1 : p.type_idx < 2^32) (h2 : p.addr < 2^32) :
    ∃ l, p.serialize = some l ∧
      EncodedTypeAddressPair.deserialize (l ++ rest) = some (p, rest) := by
  obtain ⟨l2, he2, hd2⟩ := uleb128_roundtrip p.addr rest h2
  obtain ⟨l1, he1, hd1⟩ := uleb128_roundtrip p.type_idx (l2 ++ rest) h1
  refine ⟨l1 ++ l2, ?_, ?_⟩
  · unfold EncodedTypeAddressPair.serialize
    rw [he1, he2]
    rfl
  · unfold EncodedTypeAddressPair.deserialize
    rw [List.append_assoc, hd1]
    dsimp only
    rw [hd2]
    rfl

/-- A serialized pair list parses back to itself. -/
theorem pairs_roundtrip : ∀ (hs : List EncodedTypeAddressPair) (rest : List Nat),
    (∀ p ∈ hs, p.type_idx < 2^32 ∧ p.addr < 2^32) →
    ∃ b, emitAllM EncodedTypeAddressPair.serialize hs = some b ∧
      parseCount EncodedTypeAddressPair.deserialize hs.length (b ++ rest) = some (hs, rest) := by
  intro hs
  induction hs with
  | nil => intro rest _; exact ⟨[], rfl, rfl⟩
  | cons p t ih =>
      intro rest hb
      obtain ⟨b, hbe, hbd⟩ := ih rest (fun q hq => hb q (by simp [hq]))
      obtain ⟨l, hle, hld⟩ := pair_roundtrip p (b ++ rest)
        (hb p (by simp)).1 (hb p (by simp)).2
      refine ⟨l ++ b, ?_, ?_⟩
      · simp only [emitAllM]
        rw [hle, hbe]
        rfl
      · simp only [List.length_cons, parseCount]
        rw [List.append_assoc, hld]
        dsimp only
        rw [hbd]

/-- Claim C10: `EncodedCatchHandler` (1) round-trips whenever the handler list
is non-empty or a catch-all address is present; (2) the value with empty
handlers and no catch-all serializes to the single SLEB128 byte `0`, which
`deserialize` necessarily reads back as a catch-all form (count `0 ≤ 0`), so
that value is never recovered; (3) every deserialized handler whose
`catch_all_addr` is `none` has a non-empty handler list. -/
theorem c10_encoded_catch_handler :
    (∀ (v : EncodedCatchHandler) (rest : List Nat),
       v.handlers.length < 2^27 →
       (∀ p ∈ v.handlers, p.type_idx < 2^32 ∧ p.addr < 2^32) →
       (∀ a, v.catch_all_addr = some a → a < 2^32) →
       (v.handlers ≠ [] ∨ v.catch_all_addr ≠ none) →
       ∃ l, v.serialize = some l ∧
         EncodedCatchHandler.deserialize (l ++ rest) = some (v, rest)) ∧
    (EncodedCatchHandler.serialize { handlers := [], catch_all_addr := none } = some [0] ∧
     ∀ (s : List Nat) (v : EncodedCatchHandler) (r : List Nat),
       EncodedCatchHandler.deserialize (0 :: s) = some (v, r) →
       v ≠ { handlers := [], catch_all_addr := none }) ∧
    (∀ (s : List Nat) (v : EncodedCatchHandler) (r : List Nat),
       EncodedCatchHandler.deserialize s = some (v, r) →
       v.catch_all_addr = none → v.handlers ≠ []) := by
  refine ⟨?_, ⟨rfl, ?_⟩, ?_⟩
  · -- round trip under the invariant
    intro v rest hlen hb hca hne
    obtain ⟨handlers, catch_all⟩ := v
    dsimp only at hlen hb hca hne
    cases catch_all with
    | none =>
        have hne' : handlers ≠ [] := by
          rcases hne with h | h
          · exact h
          · exact absurd rfl h
        have hn1 : 1 ≤ handlers.length := by
          cases handlers with
          | nil => exact absurd rfl hne'
          | cons a t => simp
        have hmod : handlers.length % 2^32 = handlers.length := by omega
        have hto : toInt32 (handlers.length % 2^32) = (handlers.length : Int) := by
          unfold toInt32
          rw [hmod]
          rw [if_pos (by omega)]
        obtain ⟨b, hbe, hbd⟩ := pairs_roundtrip handlers rest (by simpa using hb)
        obtain ⟨l1, hle, hld⟩ := sleb128_roundtrip (handlers.length : Int) (b ++ rest)
          (by omega) (by omega)
        refine ⟨l1 ++ b, ?_, ?_⟩
        · unfold EncodedCatchHandler.serialize
          dsimp only
          rw [hto, hle, hbe]
          rfl
        · unfold EncodedCatchHandler.deserialize
          rw [List.append_assoc, hld]
          dsimp only
          rw [show (handlers.length : Int).natAbs = handlers.length from by omega, hbd]
          dsimp only
          rw [if_neg (by omega)]
    | some a =>
        have ha : a < 2^32 := hca a rfl
        have hmod : handlers.length % 2^32 = handlers.length := by omega
        have hto : toInt32 (handlers.length % 2^32) = (handlers.length : Int) := by
          unfold toInt32
          rw [hmod]
          rw [if_pos (by omega)]
        obtain ⟨l3, hae, had⟩ := uleb128_roundtrip a rest ha
        obtain ⟨b, hbe, hbd⟩ := pairs_roundtrip handlers (l3 ++ rest) (by simpa using hb)
        obtain ⟨l1, hle, hld⟩ := sleb128_roundtrip (-(handlers.length : Int)) (b ++ (l3 ++ rest))
          (by omega) (by omega)
        refine ⟨l1 ++ b ++ l3, ?_, ?_⟩
        · unfold EncodedCatchHandler.serialize
          dsimp only
          rw [hto]
          rw [if_neg (by omega), hle, hbe, hae]
          rfl
        · unfold EncodedCatchHandler.deserialize
          rw [List.append_assoc, List.append_assoc, hld]
          dsimp only
          rw [show (-(handlers.length : Int)).natAbs = handlers.length from by omega, hbd]
          dsimp only
          rw [if_pos (by omega), had]
          rfl
  · -- deserializing the ambiguous encoding [0] ++ .. never returns ⟨[], none⟩
    intro s v r h
    unfold EncodedCatchHandler.deserialize at h
    have hdec : decode_sleb128 (0 :: s) = some (0, s) := rfl
    rw [hdec] at h
    dsimp only at h
    rw [show ((0:Int).natAbs) = 0 from rfl] at h
    dsimp only [parseCount] at h
    rw [if_pos (le_refl (0:Int))] at h
    cases hu : decode_uleb128 s with
    | none => rw [hu] at h; exact absurd h (by simp)
    | some q =>
        rw [hu] at h
        simp only [Option.map, Option.some.injEq, Prod.mk.injEq] at h
        intro hv
        rw [hv] at h
        simp at h
  · -- every parsed handler with no catch-all has a non-empty handler list
    intro s v r h hnone
    unfold EncodedCatchHandler.deserialize at h
    cases hdec : decode_sleb128 s with
    | none => rw [hdec] at h; exact absurd h (by simp)
    | some q =>
        obtain ⟨sz, s1⟩ := q
        rw [hdec] at h
        dsimp only at h
        cases hq : parseCount EncodedTypeAddressPair.deserialize sz.natAbs s1 with
        | none => rw [hq] at h; exact absurd h (by simp)
        | some w =>
            obtain ⟨handlers, s2⟩ := w
            rw [hq] at h
            dsimp only at h
            have hlen := parseCount_length EncodedTypeAddressPair.deserialize
              sz.natAbs s1 handlers s2 hq
            split_ifs at h with hsz
            · cases hu : decode_uleb128 s2 with
              | none => rw [hu] at h; exact absurd h (by simp)
              | some q2 =>
                  rw [hu] at h
                  simp only [Option.map, Option.some.injEq, Prod.mk.injEq] at h
                  rw [← h.1] at hnone
                  simp at hnone
            · simp only [Option.some.injEq, Prod.mk.injEq] at h
              have h1 := h.1
              subst h1
              dsimp only
              have hszpos : 1 ≤ sz.natAbs := by omega
              intro hcon
              rw [hcon] at hlen
              simp at hlen
              omega

/-- Witness for `c10_encoded_catch_handler` at a one-handler value. -/
theorem c10_encoded_catch_handler_witness :
    ∃ l, EncodedCatchHandler.serialize
        { handlers := [{ type_idx := 1, addr := 2 }], catch_all_addr := none } = some l ∧
      EncodedCatchHandler.deserialize (l ++ []) =
        some ({ handlers := [{ type_idx := 1, addr := 2 }], catch_all_addr := none }, []) :=
  c10_encoded_catch_handler.1
    { handlers := [{ type_idx := 1, addr := 2 }], catch_all_addr := none } []
    (by decide) (by decide) (fun a h => nomatch h) (Or.inl (by decide))

theorem decode_u16_prefix (s : List Nat) (v : Nat) (r : List Nat)
    (hb : ∀ b ∈ s, b < 256) (h : decode_u16 s = some (v, r)) :
    u16le v ++ r = s := by
  match s, h with
  | b0 :: b1 :: t, h =>
      simp only [decode_u16, Option.some.injEq, Prod.mk.injEq] at h
      obtain ⟨hv, hr⟩ := h
      have h0 : b0 < 256 := hb b0 (by simp)
      have h1 : b1 < 256 := hb b1 (by simp)
      subst hr
      simp only [u16le, List.cons_append, List.nil_append]
      have e0 : v % 256 = b0 := by omega
      have e1 : v / 256 % 256 = b1 := by omega
      rw [e0, e1]

theorem decode_u32_prefix (s : List Nat) (v : Nat) (r : List Nat)
    (hb : ∀ b ∈ s, b < 256) (h : decode_u32 s = some (v, r)) :
    u32le v ++ r = s := by
  match s, h with
  | b0 :: b1 :: b2 :: b3 :: t, h =>
      simp only [decode_u32, Option.some.injEq, Prod.mk.injEq] at h
      obtain ⟨hv, hr⟩ := h
      have h0 : b0 < 256 := hb b0 (by simp)
      have h1 : b1 < 256 := hb b1 (by simp)
      have h2 : b2 < 256 := hb b2 (by simp)
      have h3 : b3 < 256 := hb b3 (by simp)
      subst hr
      simp only [u32le, List.cons_append, List.nil_append]
      have e0 : v % 256 = b0 := by omega
      have e1 : v / 256 % 256 = b1 := by omega
      have e2 : v / 65536 % 256 = b2 := by omega
      have e3 : v / 16777216 % 256 = b3 := by omega
      rw [e0, e1, e2, e3]

theorem takeN_prefix (n : Nat) (s a r : List Nat) (h : takeN n s = some (a, r)) :
    a ++ r = s ∧ a.length = n := by
  unfold takeN at h
  split_ifs at h with hn
  simp only [Option.some.injEq, Prod.mk.injEq] at h
  obtain ⟨ha, hr⟩ := h
  subst ha
  subst hr
  exact ⟨List.take_append_drop n s, by simp [hn]⟩

theorem parseCount_prefix {α : Type} (p : List Nat → Option (α × List Nat))
    (f : α → List Nat)
    (hp : ∀ s a r, (∀ b ∈ s, b < 256) → p s = some (a, r) → f a ++ r = s) :
    ∀ (n : Nat) (s : List Nat) (l : List α) (r : List Nat),
      (∀ b ∈ s, b < 256) → parseCount p n s = some (l, r) →
      emitAll f l ++ r = s := by
  intro n
  induction n with
  | zero =>
      intro s l r hb h
      simp only [parseCount, Option.some.injEq, Prod.mk.injEq] at h
      obtain ⟨hl, hr⟩ := h
      subst hl
      subst hr
      rfl
  | succ n ih =>
      intro s l r hb h
      simp only [parseCount] at h
      cases hq : p s with
      | none => rw [hq] at h; exact absurd h (by simp)
      | some q =>
          obtain ⟨a, s1⟩ := q
          rw [hq] at h
          dsimp only at h
          cases hq2 : parseCount p n s1 with
          | none => rw [hq2] at h; exact absurd h (by simp)
          | some q2 =>
              obtain ⟨l2, s2⟩ := q2
              rw [hq2] at h
              dsimp only at h
              simp only [Option.some.injEq, Prod.mk.injEq] at h
              obtain ⟨hl, hr⟩ := h
              subst hr
              have ha := hp s a s1 hb hq
              have hb1 : ∀ b ∈ s1, b < 256 := by
                intro b hbm
                exact hb b (by rw [← ha]; exact List.mem_append_right _ hbm)
              have ht := ih s1 l2 _ hb1 hq2
              rw [← hl]
              simp only [emitAll, List.append_assoc]
              rw [ht, ha]

/-- Bytes of a suffix of a bounded stream are bounded. -/
theorem bytesOf_append {s s1 : List Nat} (pre : List Nat)
    (hb : ∀ b ∈ s, b < 256) (hpre : pre ++ s1 = s) : ∀ b ∈ s1, b < 256 := by
  intro b hbm
  exact hb b (by rw [← hpre]; exact List.mem_append_right _ hbm)

/-- Re-serializing a parsed `StringIdItem` reproduces the consumed bytes. -/
theorem StringIdItem_prefix (s : List Nat) (a : StringIdItem) (r : List Nat)
    (hb : ∀ b ∈ s, b < 256) (h : StringIdItem.deserialize s = some (a, r)) :
    StringIdItem.serialize a ++ r = s := by
  unfold StringIdItem.deserialize at h
  cases h1 : decode_u32 s with
  | none => rw [h1] at h; exact absurd h (by simp)
  | some q1 =>
      obtain ⟨v1, s1⟩ := q1
      rw [h1] at h
      dsimp only at h
      have p1 := decode_u32_prefix s v1 s1 hb h1
      simp only [Option.some.injEq, Prod.mk.injEq] at h
      obtain ⟨ha, hr⟩ := h
      subst hr
      rw [← ha]
      unfold StringIdItem.serialize
      dsimp only
      rw [p1]

/-- Re-serializing a parsed `TypeIdItem` reproduces the consumed bytes. -/
theorem TypeIdItem_prefix (s : List Nat) (a : TypeIdItem) (r : List Nat)
    (hb : ∀ b ∈ s, b < 256) (h : TypeIdItem.deserialize s = some (a, r)) :
    TypeIdItem.serialize a ++ r = s := by
  unfold TypeIdItem.deserialize at h
  cases h1 : decode_u32 s with
  | none => rw [h1] at h; exact absurd h (by simp)
  | some q1 =>
      obtain ⟨v1, s1⟩ := q1
      rw [h1] at h
      dsimp only at h
      have p1 := decode_u32_prefix s v1 s1 hb h1
      simp only [Option.some.injEq, Prod.mk.injEq] at h
      obtain ⟨ha, hr⟩ := h
      subst hr
      rw [← ha]
      unfold TypeIdItem.serialize
      dsimp only
      rw [p1]

/-- Re-serializing a parsed `ProtoIdItem` reproduces the consumed bytes. -/
theorem ProtoIdItem_prefix (s : List Nat) (a : ProtoIdItem) (r : List Nat)
    (hb : ∀ b ∈ s, b < 256) (h : ProtoIdItem.deserialize s = some (a, r)) :
    ProtoIdItem.serialize a ++ r = s := by
  unfold ProtoIdItem.deserialize at h
  cases h1 : decode_u32 s with
  | none => rw [h1] at h; exact absurd h (by simp)
  | some q1 =>
      obtain ⟨v1, s1⟩ := q1
      rw [h1] at h
      dsimp only at h
      have p1 := decode_u32_prefix s v1 s1 hb h1
      have hb1 : ∀ b ∈ s1, b < 256 := bytesOf_append (u32le v1) hb p1
      cases h2 : decode_u32 s1 with
      | none => rw [h2] at h; exact absurd h (by simp)
      | some q2 =>
          obtain ⟨v2, s2⟩ := q2
          rw [h2] at h
          dsimp only at h
          have p2 := decode_u32_prefix s1 v2 s2 hb1 h2
          have hb2 : ∀ b ∈ s2, b < 256 := bytesOf_append (u32le v2) hb1 p2
          cases h3 : decode_u32 s2 with
          | none => rw [h3] at h; exact absurd h (by simp)
          | some q3 =>
              obtain ⟨v3, s3⟩ := q3
              rw [h3] at h
              dsimp only at h
              have p3 := decode_u32_prefix s2 v3 s3 hb2 h3
              simp only [Option.some.injEq, Prod.mk.injEq] at h
              obtain ⟨ha, hr⟩ := h
              subst hr
              rw [← ha]
              unfold ProtoIdItem.serialize
              dsimp only
              simp only [List.append_assoc]
              rw [p3, p2, p1]

/-- Re-serializing a parsed `FieldIdItem` reproduces the consumed bytes. -/
theorem FieldIdItem_prefix (s : List Nat) (a : FieldIdItem) (r : List Nat)
    (hb : ∀ b ∈ s, b < 256) (h : FieldIdItem.deserialize s = some (a, r)) :
    FieldIdItem.serialize a ++ r = s := by
  unfold FieldIdItem.deserialize at h
  cases h1 : decode_u16 s with
  | none => rw [h1] at h; exact absurd h (by simp)
  | some q1 =>
      obtain ⟨v1, s1⟩ := q1
      rw [h1] at h
      dsimp only at h
      have p1 := decode_u16_prefix s v1 s1 hb h1
      have hb1 : ∀ b ∈ s1, b < 256 := bytesOf_append (u16le v1) hb p1
      cases h2 : decode_u16 s1 with
      | none => rw [h2] at h; exact absurd h (by simp)
      | some q2 =>
          obtain ⟨v2, s2⟩ := q2
          rw [h2] at h
          dsimp only at h
          have p2 := decode_u16_prefix s1 v2 s2 hb1 h2
          have hb2 : ∀ b ∈ s2, b < 256 := bytesOf_append (u16le v2) hb1 p2
          cases h3 : decode_u32 s2 with
          | none => rw [h3] at h; exact absurd h (by simp)
          | some q3 =>
              obtain ⟨v3, s3⟩ := q3
              rw [h3] at h
              dsimp only at h
              have p3 := decode_u32_prefix s2 v3 s3 hb2 h3
              simp only [Option.some.injEq, Prod.mk.injEq] at h
              obtain ⟨ha, hr⟩ := h
              subst hr
              rw [← ha]
              unfold FieldIdItem.serialize
              dsimp only
              simp only [List.append_assoc]
              rw [p3, p2, p1]

/-- Re-serializing a parsed `MethodIdItem` reproduces the consumed bytes. -/
theorem MethodIdItem_prefix (s : List Nat) (a : MethodIdItem) (r : List Nat)
    (hb : ∀ b ∈ s, b < 256) (h : MethodIdItem.deserialize s = some (a, r)) :
    MethodIdItem.serialize a ++ r = s := by
  unfold MethodIdItem.deserialize at h
  cases h1 : decode_u16 s with
  | none => rw [h1] at h; exact absurd h (by simp)
  | some q1 =>
      obtain ⟨v1, s1⟩ := q1
      rw [h1] at h
      dsimp only at h
      have p1 := decode_u16_prefix s v1 s1 hb h1
      have hb1 : ∀ b ∈ s1, b < 256 := bytesOf_append (u16le v1) hb p1
      cases h2 : decode_u16 s1 with
      | none => rw [h2] at h; exact absurd h (by simp)
      | some q2 =>
          obtain ⟨v2, s2⟩ := q2
          rw [h2] at h
          dsimp only at h
          have p2 := decode_u16_prefix s1 v2 s2 hb1 h2
          have hb2 : ∀ b ∈ s2, b < 256 := bytesOf_append (u16le v2) hb1 p2
          cases h3 : decode_u32 s2 with
          | none => rw [h3] at h; exact absurd h (by simp)
          | some q3 =>
              obtain ⟨v3, s3⟩ := q3
              rw [h3] at h
              dsimp only at h
              have p3 := decode_u32_prefix s2 v3 s3 hb2 h3
              simp only [Option.some.injEq, Prod.mk.injEq] at h
              obtain ⟨ha, hr⟩ := h
              subst hr
              rw [← ha]
              unfold MethodIdItem.serialize
              dsimp only
              simp only [List.append_assoc]
              rw [p3, p2, p1]

/-- Re-serializing a parsed `ClassDefItem` reproduces the consumed bytes. -/
theorem ClassDefItem_prefix (s : List Nat) (a : ClassDefItem) (r : List Nat)
    (hb : ∀ b ∈ s, b < 256) (h : ClassDefItem.deserialize s = some (a, r)) :
    ClassDefItem.serialize a ++ r = s := by
  unfold ClassDefItem.deserialize at h
  cases h1 : decode_u32 s with
  | none => rw [h1] at h; exact absurd h (by simp)
  | some q1 =>
      obtain ⟨v1, s1⟩ := q1
      rw [h1] at h
      dsimp only at h
      have p1 := decode_u32_prefix s v1 s1 hb h1
      have hb1 : ∀ b ∈ s1, b < 256 := bytesOf_append (u32le v1) hb p1
      cases h2 : decode_u32 s1 with
      | none => rw [h2] at h; exact absurd h (by simp)
      | some q2 =>
          obtain ⟨v2, s2⟩ := q2
          rw [h2] at h
          dsimp only at h
          have p2 := decode_u32_prefix s1 v2 s2 hb1 h2
          have hb2 : ∀ b ∈ s2, b < 256 := bytesOf_append (u32le v2) hb1 p2
          cases h3 : decode_u32 s2 with
          | none => rw [h3] at h; exact absurd h (by simp)
          | some q3 =>
              obtain ⟨v3, s3⟩ := q3
              rw [h3] at h
              dsimp only at h
              have p3 := decode_u32_prefix s2 v3 s3 hb2 h3
              have hb3 : ∀ b ∈ s3, b < 256 := bytesOf_append (u32le v3) hb2 p3
              cases h4 : decode_u32 s3 with
              | none => rw [h4] at h; exact absurd h (by simp)
              | some q4 =>
                  obtain ⟨v4, s4⟩ := q4
                  rw [h4] at h
                  dsimp only at h
                  have p4 := decode_u32_prefix s3 v4 s4 hb3 h4
                  have hb4 : ∀ b ∈ s4, b < 256 := bytesOf_append (u32le v4) hb3 p4
                  cases h5 : decode_u32 s4 with
                  | none => rw [h5] at h; exact absurd h (by simp)
                  | some q5 =>
                      obtain ⟨v5, s5⟩ := q5
                      rw [h5] at h
                      dsimp only at h
                      have p5 := decode_u32_prefix s4 v5 s5 hb4 h5
                      have hb5 : ∀ b ∈ s5, b < 256 := bytesOf_append (u32le v5) hb4 p5
                      cases h6 : decode_u32 s5 with
                      | none => rw [h6] at h; exact absurd h (by simp)
                      | some q6 =>
                          obtain ⟨v6, s6⟩ := q6
                          rw [h6] at h
                          dsimp only at h
                          have p6 := decode_u32_prefix s5 v6 s6 hb5 h6
                          have hb6 : ∀ b ∈ s6, b < 256 := bytesOf_append (u32le v6) hb5 p6
                          cases h7 : decode_u32 s6 with
                          | none => rw [h7] at h; exact absurd h (by simp)
                          | some q7 =>
                              obtain ⟨v7, s7⟩ := q7
                              rw [h7] at h
                              dsimp only at h
                              have p7 := decode_u32_prefix s6 v7 s7 hb6 h7
                              have hb7 : ∀ b ∈ s7, b < 256 := bytesOf_append (u32le v7) hb6 p7
                              cases h8 : decode_u32 s7 with
                              | none => rw [h8] at h; exact absurd h (by simp)
                              | some q8 =>
                                  obtain ⟨v8, s8⟩ := q8
                                  rw [h8] at h
                                  dsimp only at h
                                  have p8 := decode_u32_prefix s7 v8 s8 hb7 h8
                                  simp only [Option.some.injEq, Prod.mk.injEq] at h
                                  obtain ⟨ha, hr⟩ := h
                                  subst hr
                                  rw [← ha]
                                  unfold ClassDefItem.serialize
                                  dsimp only
                                  simp only [List.append_assoc]
                                  rw [p8, p7, p6, p5, p4, p3, p2, p1]

/-- Re-serializing a parsed `CallSiteIdItem` reproduces the consumed bytes. -/
theorem CallSiteIdItem_prefix (s : List Nat) (a : CallSiteIdItem) (r : List Nat)
    (hb : ∀ b ∈ s, b < 256) (h : CallSiteIdItem.deserialize s = some (a, r)) :
    CallSiteIdItem.serialize a ++ r = s := by
  unfold CallSiteIdItem.deserialize at h
  cases h1 : decode_u32 s with
  | none => rw [h1] at h; exact absurd h (by simp)
  | some q1 =>
      obtain ⟨v1, s1⟩ := q1
      rw [h1] at h
      dsimp only at h
      have p1 := decode_u32_prefix s v1 s1 hb h1
      simp only [Option.some.injEq, Prod.mk.injEq] at h
      obtain ⟨ha, hr⟩ := h
      subst hr
      rw [← ha]
      unfold CallSiteIdItem.serialize
      dsimp only
      rw [p1]

/-- Re-serializing a parsed `MethodHandleItem` reproduces the consumed bytes. -/
theorem MethodHandleItem_prefix (s : List Nat) (a : MethodHandleItem) (r : List Nat)
    (hb : ∀ b ∈ s, b < 256) (h : MethodHandleItem.deserialize s = some (a, r)) :
    MethodHandleItem.serialize a ++ r = s := by
  unfold MethodHandleItem.deserialize at h
  cases h1 : decode_u16 s with
  | none => rw [h1] at h; exact absurd h (by simp)
  | some q1 =>
      obtain ⟨v1, s1⟩ := q1
      rw [h1] at h
      dsimp only at h
      have p1 := decode_u16_prefix s v1 s1 hb h1
      have hb1 : ∀ b ∈ s1, b < 256 := bytesOf_append (u16le v1) hb p1
      cases h2 : decode_u16 s1 with
      | none => rw [h2] at h; exact absurd h (by simp)
      | some q2 =>
          obtain ⟨v2, s2⟩ := q2
          rw [h2] at h
          dsimp only at h
          have p2 := decode_u16_prefix s1 v2 s2 hb1 h2
          have hb2 : ∀ b ∈ s2, b < 256 := bytesOf_append (u16le v2) hb1 p2
          cases h3 : decode_u16 s2 with
          | none => rw [h3] at h; exact absurd h (by simp)
          | some q3 =>
              obtain ⟨v3, s3⟩ := q3
              rw [h3] at h
              dsimp only at h
              have p3 := decode_u16_prefix s2 v3 s3 hb2 h3
              have hb3 : ∀ b ∈ s3, b < 256 := bytesOf_append (u16le v3) hb2 p3
              cases h4 : decode_u16 s3 with
              | none => rw [h4] at h; exact absurd h (by simp)
              | some q4 =>
                  obtain ⟨v4, s4⟩ := q4
                  rw [h4] at h
                  dsimp only at h
                  have p4 := decode_u16_prefix s3 v4 s4 hb3 h4
                  simp only [Option.some.injEq, Prod.mk.injEq] at h
                  obtain ⟨ha, hr⟩ := h
                  subst hr
                  rw [← ha]
                  unfold MethodHandleItem.serialize
                  dsimp only
                  simp only [List.append_assoc]
                  rw [p4, p3, p2, p1]
/-- Re-serializing a parsed `Header` reproduces the consumed 112 bytes. -/
theorem Header_prefix (s : List Nat) (hd : Header) (r : List Nat)
    (hb : ∀ b ∈ s, b < 256) (h : Header.deserialize s = some (hd, r)) :
    Header.serialize hd ++ r = s ∧ hd.magic.length = 8 ∧ hd.signature.length = 20 := by
  unfold Header.deserialize at h
  cases t1 : takeN 8 s with
  | none => rw [t1] at h; exact absurd h (by simp)
  | some q1 =>
      obtain ⟨vm, s1⟩ := q1
      rw [t1] at h
      dsimp only at h
      obtain ⟨pm, plm⟩ := takeN_prefix 8 s vm s1 t1
      have hb1 : ∀ b ∈ s1, b < 256 := bytesOf_append vm hb pm
      cases t2 : decode_u32 s1 with
      | none => rw [t2] at h; exact absurd h (by simp)
      | some q2 =>
          obtain ⟨vc, s2⟩ := q2
          rw [t2] at h
          dsimp only at h
          have pc := decode_u32_prefix s1 vc s2 hb1 t2
          have hb2 : ∀ b ∈ s2, b < 256 := bytesOf_append (u32le vc) hb1 pc
          cases t3 : takeN 20 s2 with
          | none => rw [t3] at h; exact absurd h (by simp)
          | some q3 =>
              obtain ⟨vs, s3⟩ := q3
              rw [t3] at h
              dsimp only at h
              obtain ⟨ps, pls⟩ := takeN_prefix 20 s2 vs s3 t3
              have hb3 : ∀ b ∈ s3, b < 256 := bytesOf_append vs hb2 ps
              cases t4 : decode_u32 s3 with
              | none => rw [t4] at h; exact absurd h (by simp)
              | some q4 =>
                  obtain ⟨v4, s4⟩ := q4
                  rw [t4] at h
                  dsimp only at h
                  have p4 := decode_u32_prefix s3 v4 s4 hb3 t4
                  have hb4 : ∀ b ∈ s4, b < 256 := bytesOf_append (u32le v4) hb3 p4
                  cases t5 : decode_u32 s4 with
                  | none => rw [t5] at h; exact absurd h (by simp)
                  | some q5 =>
                      obtain ⟨v5, s5⟩ := q5
                      rw [t5] at h
                      dsimp only at h
                      have p5 := decode_u32_prefix s4 v5 s5 hb4 t5
                      have hb5 : ∀ b ∈ s5, b < 256 := bytesOf_append (u32le v5) hb4 p5
                      cases t6 : decode_u32 s5 with
                      | none => rw [t6] at h; exact absurd h (by simp)
                      | some q6 =>
                          obtain ⟨v6, s6⟩ := q6
                          rw [t6] at h
                          dsimp only at h
                          have p6 := decode_u32_prefix s5 v6 s6 hb5 t6
                          have hb6 : ∀ b ∈ s6, b < 256 := bytesOf_append (u32le v6) hb5 p6
                          cases t7 : decode_u32 s6 with
                          | none => rw [t7] at h; exact absurd h (by simp)
                          | some q7 =>
                              obtain ⟨v7, s7⟩ := q7
                              rw [t7] at h
                              dsimp only at h
                              have p7 := decode_u32_prefix s6 v7 s7 hb6 t7
                              have hb7 : ∀ b ∈ s7, b < 256 := bytesOf_append (u32le v7) hb6 p7
                              cases t8 : decode_u32 s7 with
                              | none => rw [t8] at h; exact absurd h (by simp)
                              | some q8 =>
                                  obtain ⟨v8, s8⟩ := q8
                                  rw [t8] at h
                                  dsimp only at h
                                  have p8 := decode_u32_prefix s7 v8 s8 hb7 t8
                                  have hb8 : ∀ b ∈ s8, b < 256 := bytesOf_append (u32le v8) hb7 p8
                                  cases t9 : decode_u32 s8 with
                                  | none => rw [t9] at h; exact absurd h (by simp)
                                  | some q9 =>
                                      obtain ⟨v9, s9⟩ := q9
                                      rw [t9] at h
                                      dsimp only at h
                                      have p9 := decode_u32_prefix s8 v9 s9 hb8 t9
                                      have hb9 : ∀ b ∈ s9, b < 256 := bytesOf_append (u32le v9) hb8 p9
                                      cases t10 : decode_u32 s9 with
                                      | none => rw [t10] at h; exact absurd h (by simp)
                                      | some q10 =>
                                          obtain ⟨v10, s10⟩ := q10
                                          rw [t10] at h
                                          dsimp only at h
                                          have p10 := decode_u32_prefix s9 v10 s10 hb9 t10
                                          have hb10 : ∀ b ∈ s10, b < 256 := bytesOf_append (u32le v10) hb9 p10
                                          cases t11 : decode_u32 s10 with
                                          | none => rw [t11] at h; exact absurd h (by simp)
                                          | some q11 =>
                                              obtain ⟨v11, s11⟩ := q11
                                              rw [t11] at h
                                              dsimp only at h
                                              have p11 := decode_u32_prefix s10 v11 s11 hb10 t11
                                              have hb11 : ∀ b ∈ s11, b < 256 := bytesOf_append (u32le v11) hb10 p11
                                              cases t12 : decode_u32 s11 with
                                              | none => rw [t12] at h; exact absurd h (by simp)
                                              | some q12 =>
                                                  obtain ⟨v12, s12⟩ := q12
                                                  rw [t12] at h
                                                  dsimp only at h
                                                  have p12 := decode_u32_prefix s11 v12 s12 hb11 t12
                                                  have hb12 : ∀ b ∈ s12, b < 256 := bytesOf_append (u32le v12) hb11 p12
                                                  cases t13 : decode_u32 s12 with
                                                  | none => rw [t13] at h; exact absurd h (by simp)
                                                  | some q13 =>
                                                      obtain ⟨v13, s13⟩ := q13
                                                      rw [t13] at h
                                                      dsimp only at h
                                                      have p13 := decode_u32_prefix s12 v13 s13 hb12 t13
                                                      have hb13 : ∀ b ∈ s13, b < 256 := bytesOf_append (u32le v13) hb12 p13
                                                      cases t14 : decode_u32 s13 with
                                                      | none => rw [t14] at h; exact absurd h (by simp)
                                                      | some q14 =>
                                                          obtain ⟨v14, s14⟩ := q14
                                                          rw [t14] at h
                                                          dsimp only at h
                                                          have p14 := decode_u32_prefix s13 v14 s14 hb13 t14
                                                          have hb14 : ∀ b ∈ s14, b < 256 := bytesOf_append (u32le v14) hb13 p14
                                                          cases t15 : decode_u32 s14 with
                                                          | none => rw [t15] at h; exact absurd h (by simp)
                                                          | some q15 =>
                                                              obtain ⟨v15, s15⟩ := q15
                                                              rw [t15] at h
                                                              dsimp only at h
                                                              have p15 := decode_u32_prefix s14 v15 s15 hb14 t15
                                                              have hb15 : ∀ b ∈ s15, b < 256 := bytesOf_append (u32le v15) hb14 p15
                                                              cases t16 : decode_u32 s15 with
                                                              | none => rw [t16] at h; exact absurd h (by simp)
                                                              | some q16 =>
                                                                  obtain ⟨v16, s16⟩ := q16
                                                                  rw [t16] at h
                                                                  dsimp only at h
                                                                  have p16 := decode_u32_prefix s15 v16 s16 hb15 t16
                                                                  have hb16 : ∀ b ∈ s16, b < 256 := bytesOf_append (u32le v16) hb15 p16
                                                                  cases t17 : decode_u32 s16 with
                                                                  | none => rw [t17] at h; exact absurd h (by simp)
                                                                  | some q17 =>
                                                                      obtain ⟨v17, s17⟩ := q17
                                                                      rw [t17] at h
                                                                      dsimp only at h
                                                                      have p17 := decode_u32_prefix s16 v17 s17 hb16 t17
                                                                      have hb17 : ∀ b ∈ s17, b < 256 := bytesOf_append (u32le v17) hb16 p17
                                                                      cases t18 : decode_u32 s17 with
                                                                      | none => rw [t18] at h; exact absurd h (by simp)
                                                                      | some q18 =>
                                                                          obtain ⟨v18, s18⟩ := q18
                                                                          rw [t18] at h
                                                                          dsimp only at h
                                                                          have p18 := decode_u32_prefix s17 v18 s18 hb17 t18
                                                                          have hb18 : ∀ b ∈ s18, b < 256 := bytesOf_append (u32le v18) hb17 p18
                                                                          cases t19 : decode_u32 s18 with
                                                                          | none => rw [t19] at h; exact absurd h (by simp)
                                                                          | some q19 =>
                                                                              obtain ⟨v19, s19⟩ := q19
                                                                              rw [t19] at h
                                                                              dsimp only at h
                                                                              have p19 := decode_u32_prefix s18 v19 s19 hb18 t19
                                                                              have hb19 : ∀ b ∈ s19, b < 256 := bytesOf_append (u32le v19) hb18 p19
                                                                              cases t20 : decode_u32 s19 with
                                                                              | none => rw [t20] at h; exact absurd h (by simp)
                                                                              | some q20 =>
                                                                                  obtain ⟨v20, s20⟩ := q20
                                                                                  rw [t20] at h
                                                                                  dsimp only at h
                                                                                  have p20 := decode_u32_prefix s19 v20 s20 hb19 t20
                                                                                  have hb20 : ∀ b ∈ s20, b < 256 := bytesOf_append (u32le v20) hb19 p20
                                                                                  cases t21 : decode_u32 s20 with
                                                                                  | none => rw [t21] at h; exact absurd h (by simp)
                                                                                  | some q21 =>
                                                                                      obtain ⟨v21, s21⟩ := q21
                                                                                      rw [t21] at h
                                                                                      dsimp only at h
                                                                                      have p21 := decode_u32_prefix s20 v21 s21 hb20 t21
                                                                                      have hb21 : ∀ b ∈ s21, b < 256 := bytesOf_append (u32le v21) hb20 p21
                                                                                      cases t22 : decode_u32 s21 with
                                                                                      | none => rw [t22] at h; exact absurd h (by simp)
                                                                                      | some q22 =>
                                                                                          obtain ⟨v22, s22⟩ := q22
                                                                                          rw [t22] at h
                                                                                          dsimp only at h
                                                                                          have p22 := decode_u32_prefix s21 v22 s22 hb21 t22
                                                                                          have hb22 : ∀ b ∈ s22, b < 256 := bytesOf_append (u32le v22) hb21 p22
                                                                                          cases t23 : decode_u32 s22 with
                                                                                          | none => rw [t23] at h; exact absurd h (by simp)
                                                                                          | some q23 =>
                                                                                              obtain ⟨v23, s23⟩ := q23
                                                                                              rw [t23] at h
                                                                                              dsimp only at h
                                                                                              have p23 := decode_u32_prefix s22 v23 s23 hb22 t23
                                                                                              simp only [Option.some.injEq, Prod.mk.injEq] at h
                                                                                              obtain ⟨ha, hr⟩ := h
                                                                                              subst hr
                                                                                              rw [← ha]
                                                                                              refine ⟨?_, plm, pls⟩
                                                                                              unfold Header.serialize
                                                                                              dsimp only
                                                                                              simp only [List.append_assoc]
                                                                                              rw [p23, p22, p21, p20, p19, p18, p17, p16, p15, p14, p13, p12, p11, p10, p9, p8, p7, p6, p5, p4, ps, pc, pm]

/-- Prefix reconstruction for the optional map-driven id sections: a section
parsed through `parseSectionAt` re-serializes to exactly the bytes it
consumed (the `none` case consumes nothing and yields the empty list). -/
theorem parseSectionAt_prefix {α : Type} (p : List Nat → Option (α × List Nat))
    (f : α → List Nat)
    (hp : ∀ s a r, (∀ b ∈ s, b < 256) → p s = some (a, r) → f a ++ r = s)
    (mi? : Option MapItem) (s : List Nat) (l : List α) (r : List Nat)
    (hb : ∀ b ∈ s, b < 256) (h : parseSectionAt p mi? s = some (l, r)) :
    emitAll f l ++ r = s := by
  cases mi? with
  | none =>
      simp only [parseSectionAt, Option.some.injEq, Prod.mk.injEq] at h
      obtain ⟨hl, hr⟩ := h
      subst hr
      rw [← hl]
      rfl
  | some mi => exact parseCount_prefix p f hp mi.size s l r hb h

/-- `Header::serialize` always emits exactly 112 bytes (given the fixed
8-byte magic and 20-byte signature arrays). -/
theorem header_serialize_length (h : Header)
    (hm : h.magic.length = 8) (hs : h.signature.length = 20) :
    (Header.serialize h).length = 112 := by
  simp [Header.serialize, u32le, hm, hs]


/-- Claim C1: byte-for-byte round trip.  For every well-formed input `B` —
bytes in range, `deserialize B` succeeds, and the layout is the standard
contiguous one (the data section starts right after the id tables, and the
link section, when present, follows it to the end of the file) —
re-serializing the parsed model reproduces `B` exactly. -/
theorem c1_dex_roundtrip (B : List Nat) (dex : DexFile)
    (hbytes : ∀ b ∈ B, b < 256)
    (hparse : deserialize B = some dex)
    (hlink : dex.header.link_size = 0 ∨
             dex.header.link_off = idBytesEnd dex + dex.header.data_size)
    (hlen : B.length = idBytesEnd dex + dex.header.data_size + dex.header.link_size) :
    serialize dex = B := by
  unfold deserialize at hparse
  have e1 : ∃ q, Header.deserialize B = some q := by
    cases hq : Header.deserialize B
    · rw [hq] at hparse; exact absurd hparse (by simp)
    · exact ⟨_, rfl⟩
  obtain ⟨⟨header, s1⟩, e1⟩ := e1
  rw [e1] at hparse
  dsimp only at hparse
  have e2 : ∃ q, parseCount StringIdItem.deserialize header.string_ids_size s1 = some q := by
    cases hq : parseCount StringIdItem.deserialize header.string_ids_size s1
    · rw [hq] at hparse; exact absurd hparse (by simp)
    · exact ⟨_, rfl⟩
  obtain ⟨⟨string_ids, s2⟩, e2⟩ := e2
  rw [e2] at hparse
  dsimp only at hparse
  have e3 : ∃ q, parseCount TypeIdItem.deserialize header.type_ids_size s2 = some q := by
    cases hq : parseCount TypeIdItem.deserialize header.type_ids_size s2
    · rw [hq] at hparse; exact absurd hparse (by simp)
    · exact ⟨_, rfl⟩
  obtain ⟨⟨type_ids, s3⟩, e3⟩ := e3
  rw [e3] at hparse
  dsimp only at hparse
  have e4 : ∃ q, parseCount ProtoIdItem.deserialize header.proto_ids_size s3 = some q := by
    cases hq : parseCount ProtoIdItem.deserialize header.proto_ids_size s3
    · rw [hq] at hparse; exact absurd hparse (by simp)
    · exact ⟨_, rfl⟩
  obtain ⟨⟨proto_ids, s4⟩, e4⟩ := e4
  rw [e4] at hparse
  dsimp only at hparse
  have e5 : ∃ q, parseCount FieldIdItem.deserialize header.field_ids_size s4 = some q := by
    cases hq : parseCount FieldIdItem.deserialize header.field_ids_size s4
    · rw [hq] at hparse; exact absurd hparse (by simp)
    · exact ⟨_, rfl⟩
  obtain ⟨⟨field_ids, s5⟩, e5⟩ := e5
  rw [e5] at hparse
  dsimp only at hparse
  have e6 : ∃ q, parseCount MethodIdItem.deserialize header.method_ids_size s5 = some q := by
    cases hq : parseCount MethodIdItem.deserialize header.method_ids_size s5
    · rw [hq] at hparse; exact absurd hparse (by simp)
    · exact ⟨_, rfl⟩
  obtain ⟨⟨method_ids, s6⟩, e6⟩ := e6
  rw [e6] at hparse
  dsimp only at hparse
  have e7 : ∃ q, parseCount ClassDefItem.deserialize header.class_defs_size s6 = some q := by
    cases hq : parseCount ClassDefItem.deserialize header.class_defs_size s6
    · rw [hq] at hparse; exact absurd hparse (by simp)
    · exact ⟨_, rfl⟩
  obtain ⟨⟨class_defs, s7⟩, e7⟩ := e7
  rw [e7] at hparse
  dsimp only at hparse
  have e8 : ∃ q, decode_u32 (B.drop header.map_off) = some q := by
    cases hq : decode_u32 (B.drop header.map_off)
    · rw [hq] at hparse; exact absurd hparse (by simp)
    · exact ⟨_, rfl⟩
  obtain ⟨⟨map_list_size, mrest⟩, e8⟩ := e8
  rw [e8] at hparse
  dsimp only at hparse
  have e9 : ∃ q, parseCount MapItem.deserialize map_list_size (B.drop (header.map_off + 4)) = some q := by
    cases hq : parseCount MapItem.deserialize map_list_size (B.drop (header.map_off + 4))
    · rw [hq] at hparse; exact absurd hparse (by simp)
    · exact ⟨_, rfl⟩
  obtain ⟨⟨map_items, mrest2⟩, e9⟩ := e9
  rw [e9] at hparse
  dsimp only at hparse
  have e10 : ∃ q, parseSectionAt CallSiteIdItem.deserialize (MapList.get { list := map_items } 0x0007) s7 = some q := by
    cases hq : parseSectionAt CallSiteIdItem.deserialize (MapList.get { list := map_items } 0x0007) s7
    · rw [hq] at hparse; exact absurd hparse (by simp)
    · exact ⟨_, rfl⟩
  obtain ⟨⟨call_site_ids, s8⟩, e10⟩ := e10
  rw [e10] at hparse
  dsimp only at hparse
  have e11 : ∃ q, parseSectionAt MethodHandleItem.deserialize (MapList.get { list := map_items } 0x0008) s8 = some q := by
    cases hq : parseSectionAt MethodHandleItem.deserialize (MapList.get { list := map_items } 0x0008) s8
    · rw [hq] at hparse; exact absurd hparse (by simp)
    · exact ⟨_, rfl⟩
  obtain ⟨⟨method_handles, s9⟩, e11⟩ := e11
  rw [e11] at hparse
  dsimp only at hparse
  have e12 : B.length - s9.length + header.data_size ≤ B.length := by
    by_contra hc
    rw [if_neg hc] at hparse; exact absurd hparse (by simp)
  rw [if_pos e12] at hparse
  have e13 : ∃ q, parseViewAt parse_string_data_items (MapList.get { list := map_items } 0x2002) B = some q := by
    cases hq : parseViewAt parse_string_data_items (MapList.get { list := map_items } 0x2002) B
    · rw [hq] at hparse; exact absurd hparse (by simp)
    · exact ⟨_, rfl⟩
  obtain ⟨string_data_items, e13⟩ := e13
  rw [e13] at hparse
  dsimp only at hparse
  have e14 : ∃ q, parseViewAt parse_type_lists (MapList.get { list := map_items } 0x1001) B = some q := by
    cases hq : parseViewAt parse_type_lists (MapList.get { list := map_items } 0x1001) B
    · rw [hq] at hparse; exact absurd hparse (by simp)
    · exact ⟨_, rfl⟩
  obtain ⟨type_lists, e14⟩ := e14
  rw [e14] at hparse
  dsimp only at hparse
  have e15 : ∃ q, parseViewAt parse_anno_set_ref_lists (MapList.get { list := map_items } 0x1002) B = some q := by
    cases hq : parseViewAt parse_anno_set_ref_lists (MapList.get { list := map_items } 0x1002) B
    · rw [hq] at hparse; exact absurd hparse (by simp)
    · exact ⟨_, rfl⟩
  obtain ⟨anno_set_ref_lists, e15⟩ := e15
  rw [e15] at hparse
  dsimp only at hparse
  have e16 : ∃ q, parseViewAt parse_anno_set_items (MapList.get { list := map_items } 0x1003) B = some q := by
    cases hq : parseViewAt parse_anno_set_items (MapList.get { list := map_items } 0x1003) B
    · rw [hq] at hparse; exact absurd hparse (by simp)
    · exact ⟨_, rfl⟩
  obtain ⟨anno_set_items, e16⟩ := e16
  rw [e16] at hparse
  dsimp only at hparse
  have e17 : ∃ q, parseViewAt parse_anno_items (MapList.get { list := map_items } 0x2004) B = some q := by
    cases hq : parseViewAt parse_anno_items (MapList.get { list := map_items } 0x2004) B
    · rw [hq] at hparse; exact absurd hparse (by simp)
    · exact ⟨_, rfl⟩
  obtain ⟨anno_items, e17⟩ := e17
  rw [e17] at hparse
  dsimp only at hparse
  have e18 : ∃ q, parseViewAt parse_anno_directory_items (MapList.get { list := map_items } 0x2006) B = some q := by
    cases hq : parseViewAt parse_anno_directory_items (MapList.get { list := map_items } 0x2006) B
    · rw [hq] at hparse; exact absurd hparse (by simp)
    · exact ⟨_, rfl⟩
  obtain ⟨anno_dir_items, e18⟩ := e18
  rw [e18] at hparse
  dsimp only at hparse
  have e19 : ∃ q, hiddenapiGuard (MapList.get { list := map_items } 0xF000) = some q := by
    cases hq : hiddenapiGuard (MapList.get { list := map_items } 0xF000)
    · rw [hq] at hparse; exact absurd hparse (by simp)
    · exact ⟨_, rfl⟩
  obtain ⟨hunit, e19⟩ := e19
  rw [e19] at hparse
  dsimp only at hparse
  have e20 : ∃ q, parseViewAt parse_encoded_array_items (MapList.get { list := map_items } 0x2005) B = some q := by
    cases hq : parseViewAt parse_encoded_array_items (MapList.get { list := map_items } 0x2005) B
    · rw [hq] at hparse; exact absurd hparse (by simp)
    · exact ⟨_, rfl⟩
  obtain ⟨enc_array_items, e20⟩ := e20
  rw [e20] at hparse
  dsimp only at hparse
  have e21 : ∃ q, parseViewAt parse_class_data_items (MapList.get { list := map_items } 0x2000) B = some q := by
    cases hq : parseViewAt parse_class_data_items (MapList.get { list := map_items } 0x2000) B
    · rw [hq] at hparse; exact absurd hparse (by simp)
    · exact ⟨_, rfl⟩
  obtain ⟨cls_data_items, e21⟩ := e21
  rw [e21] at hparse
  dsimp only at hparse
  have e22 : ∃ q, parseViewAt parse_debug_info_items (MapList.get { list := map_items } 0x2003) B = some q := by
    cases hq : parseViewAt parse_debug_info_items (MapList.get { list := map_items } 0x2003) B
    · rw [hq] at hparse; exact absurd hparse (by simp)
    · exact ⟨_, rfl⟩
  obtain ⟨dbg_info_items, e22⟩ := e22
  rw [e22] at hparse
  dsimp only at hparse
  have e23 : ∃ q, parseCodeViewAt (MapList.get { list := map_items } 0x2001) B = some q := by
    cases hq : parseCodeViewAt (MapList.get { list := map_items } 0x2001) B
    · rw [hq] at hparse; exact absurd hparse (by simp)
    · exact ⟨_, rfl⟩
  obtain ⟨code_items, e23⟩ := e23
  rw [e23] at hparse
  dsimp only at hparse
  have e24 : header.link_off + header.link_size < 2^32 ∧
      header.link_off + header.link_size ≤ B.length := by
    by_contra hc
    rw [if_neg hc] at hparse; exact absurd hparse (by simp)
  rw [if_pos e24] at hparse
  have hdex := Option.some.inj hparse
  have hh : dex.header = header := by rw [← hdex]
  have hf1 : dex.string_ids = string_ids := by rw [← hdex]
  have hf2 : dex.type_ids = type_ids := by rw [← hdex]
  have hf3 : dex.proto_ids = proto_ids := by rw [← hdex]
  have hf4 : dex.field_ids = field_ids := by rw [← hdex]
  have hf5 : dex.method_ids = method_ids := by rw [← hdex]
  have hf6 : dex.class_defs = class_defs := by rw [← hdex]
  have hf7 : dex.call_site_ids = call_site_ids := by rw [← hdex]
  have hf8 : dex.method_handles = method_handles := by rw [← hdex]
  have hfd : dex.data = (B.drop (B.length - s9.length)).take header.data_size := by
    rw [← hdex]
  have hfl : dex.link_data = (B.drop header.link_off).take header.link_size := by
    rw [← hdex]
  obtain ⟨p0, pm8, ps20⟩ := Header_prefix B header s1 hbytes e1
  have hb1 : ∀ b ∈ s1, b < 256 := bytesOf_append _ hbytes p0
  have p1 : emitAll StringIdItem.serialize string_ids ++ s2 = s1 :=
    parseCount_prefix StringIdItem.deserialize StringIdItem.serialize StringIdItem_prefix
      header.string_ids_size s1 string_ids s2 hb1 e2
  have hb2 : ∀ b ∈ s2, b < 256 := bytesOf_append _ hb1 p1
  have p2 : emitAll TypeIdItem.serialize type_ids ++ s3 = s2 :=
    parseCount_prefix TypeIdItem.deserialize TypeIdItem.serialize TypeIdItem_prefix
      header.type_ids_size s2 type_ids s3 hb2 e3
  have hb3 : ∀ b ∈ s3, b < 256 := bytesOf_append _ hb2 p2
  have p3 : emitAll ProtoIdItem.serialize proto_ids ++ s4 = s3 :=
    parseCount_prefix ProtoIdItem.deserialize ProtoIdItem.serialize ProtoIdItem_prefix
      header.proto_ids_size s3 proto_ids s4 hb3 e4
  have hb4 : ∀ b ∈ s4, b < 256 := bytesOf_append _ hb3 p3
  have p4 : emitAll FieldIdItem.serialize field_ids ++ s5 = s4 :=
    parseCount_prefix FieldIdItem.deserialize FieldIdItem.serialize FieldIdItem_prefix
      header.field_ids_size s4 field_ids s5 hb4 e5
  have hb5 : ∀ b ∈ s5, b < 256 := bytesOf_append _ hb4 p4
  have p5 : emitAll MethodIdItem.serialize method_ids ++ s6 = s5 :=
    parseCount_prefix MethodIdItem.deserialize MethodIdItem.serialize MethodIdItem_prefix
      header.method_ids_size s5 method_ids s6 hb5 e6
  have hb6 : ∀ b ∈ s6, b < 256 := bytesOf_append _ hb5 p5
  have p6 : emitAll ClassDefItem.serialize class_defs ++ s7 = s6 :=
    parseCount_prefix ClassDefItem.deserialize ClassDefItem.serialize ClassDefItem_prefix
      header.class_defs_size s6 class_defs s7 hb6 e7
  have hb7 : ∀ b ∈ s7, b < 256 := bytesOf_append _ hb6 p6
  have p7 : emitAll CallSiteIdItem.serialize call_site_ids ++ s8 = s7 :=
    parseSectionAt_prefix CallSiteIdItem.deserialize CallSiteIdItem.serialize
      CallSiteIdItem_prefix (MapList.get { list := map_items } 0x0007) s7
      call_site_ids s8 hb7 e10
  have hb8 : ∀ b ∈ s8, b < 256 := bytesOf_append _ hb7 p7
  have p8 : emitAll MethodHandleItem.serialize method_handles ++ s9 = s8 :=
    parseSectionAt_prefix MethodHandleItem.deserialize MethodHandleItem.serialize
      MethodHandleItem_prefix (MapList.get { list := map_items } 0x0008) s8
      method_handles s9 hb8 e11
  set P := Header.serialize header ++ emitAll StringIdItem.serialize string_ids ++ emitAll TypeIdItem.serialize type_ids ++ emitAll ProtoIdItem.serialize proto_ids ++ emitAll FieldIdItem.serialize field_ids ++ emitAll MethodIdItem.serialize method_ids ++ emitAll ClassDefItem.serialize class_defs ++ emitAll CallSiteIdItem.serialize call_site_ids ++ emitAll MethodHandleItem.serialize method_handles with hPdef
  have hB2 : P ++ s9 = B := by
    rw [hPdef, ← p0, ← p1, ← p2, ← p3, ← p4, ← p5, ← p6, ← p7, ← p8]
    simp only [List.append_assoc]
  have hl0 : (Header.serialize header).length = 112 :=
    header_serialize_length header pm8 ps20
  have hl1 := emitAll_length StringIdItem.serialize 4 (fun a => rfl) string_ids
  have hl2 := emitAll_length TypeIdItem.serialize 4 (fun a => rfl) type_ids
  have hl3 := emitAll_length ProtoIdItem.serialize 12 (fun a => rfl) proto_ids
  have hl4 := emitAll_length FieldIdItem.serialize 8 (fun a => rfl) field_ids
  have hl5 := emitAll_length MethodIdItem.serialize 8 (fun a => rfl) method_ids
  have hl6 := emitAll_length ClassDefItem.serialize 32 (fun a => rfl) class_defs
  have hl7 := emitAll_length CallSiteIdItem.serialize 4 (fun a => rfl) call_site_ids
  have hl8 := emitAll_length MethodHandleItem.serialize 8 (fun a => rfl) method_handles
  have hPlen : P.length = 112 + 4 * string_ids.length + 4 * type_ids.length + 12 * proto_ids.length + 8 * field_ids.length + 8 * method_ids.length + 32 * class_defs.length + 4 * call_site_ids.length + 8 * method_handles.length := by
    rw [hPdef]
    simp only [List.length_append, hl0, hl1, hl2, hl3, hl4, hl5, hl6, hl7, hl8]
  have hidb : idBytesEnd dex = 112 + 4 * string_ids.length + 4 * type_ids.length + 12 * proto_ids.length + 8 * field_ids.length + 8 * method_ids.length + 32 * class_defs.length + 4 * call_site_ids.length + 8 * method_handles.length := by
    unfold idBytesEnd
    rw [hf1, hf2, hf3, hf4, hf5, hf6, hf7, hf8]
  rw [hh, hidb] at hlen hlink
  have hBlen : B.length = P.length + s9.length := by
    rw [← hB2, List.length_append]
  have hs9len : s9.length = header.data_size + header.link_size := by omega
  have hireq : B.length - s9.length = P.length := by omega
  have hdrop : B.drop P.length = s9 := by
    rw [← hB2]; exact List.drop_left _ _
  have hdata : dex.data = s9.take header.data_size := by
    rw [hfd, hireq, hdrop]
  rcases hlink with hz | hoff
  · have hld : dex.link_data = [] := by rw [hfl, hz, List.take_zero]
    have hdata2 : dex.data = s9 := by
      rw [hdata]; exact List.take_of_length_le (by omega)
    unfold serialize
    rw [hh, hf1, hf2, hf3, hf4, hf5, hf6, hf7, hf8, hdata2, hld, List.append_nil]
    rw [hPdef] at hB2
    exact hB2
  · have hoff2 : header.link_off = P.length + header.data_size := by omega
    have hld : dex.link_data = s9.drop header.data_size := by
      rw [hfl, hoff2, ← List.drop_drop, hdrop]
      exact List.take_of_length_le (by rw [List.length_drop]; omega)
    unfold serialize
    rw [hh, hf1, hf2, hf3, hf4, hf5, hf6, hf7, hf8, hdata, hld]
    rw [List.append_assoc, List.take_append_drop]
    rw [hPdef] at hB2
    exact hB2

/-- Witness for `c1_dex_roundtrip` at the 116-byte concrete file `B0` and its
parsed model `dex0`. -/
theorem c1_dex_roundtrip_witness :
    (∀ b ∈ B0, b < 256) ∧ deserialize B0 = some dex0 ∧
    (dex0.header.link_size = 0 ∨
     dex0.header.link_off = idBytesEnd dex0 + dex0.header.data_size) ∧
    B0.length = idBytesEnd dex0 + dex0.header.data_size + dex0.header.link_size ∧
    serialize dex0 = B0 :=
  ⟨by decide, by rfl, Or.inl (by rfl), by rfl,
   c1_dex_roundtrip B0 dex0 (by decide) (by rfl) (Or.inl (by rfl)) (by rfl)⟩
